import Mathlib

/-!
Verification development for the git-jira-bot clustering engine.

The definitions below are a shallow embedding of the two core modules,
`cluster_knowledge.py` (task-centric clustering) and `cluster_employee.py`
(employee-centric clustering with analytics), translated statement by
statement from the Python source.

Modelling conventions:
* Python strings are `List Char` (abbreviated `Str`), so the regex scans
  over free text can be executed character by character.
* ISO-8601 timestamps are parsed with `datetime.fromisoformat` and then
  only ever compared; we abstract the parsed value as a `Nat` carrying the
  total order of time points.
* Python dicts (and `defaultdict`s) preserve insertion order, so they are
  embedded as association lists; `dictUpd` updates the first binding in
  place or appends a fresh binding at the end, exactly like a `defaultdict`
  item access followed by a mutation.
* Python truthiness on optional strings (`if task_id:`, `if sender and
  recipient ...`) is modelled as "is `some s` with `s ≠ []`".
* `list.sort(key=...)` / `sorted(..., reverse=True)` are stable; they are
  embedded as `List.insertionSort` with a reflexive key comparison, which
  is the stable sort on lists.
-/

abbrev Str := List Char

/-- Embedded JIRA ticket record (`jira` collection). -/
structure Ticket where
  id : Str
  summary : Str
  status : Str
  assignee : Option Str
  created_at : Nat
  updated_at : Nat
  resolution : Option Str
deriving DecidableEq

/-- Embedded git commit record (`git` collection). -/
structure Commit where
  commit_id : Str
  author : Option Str
  ticket : Option Str
  message : Str
  timestamp : Nat
deriving DecidableEq

/-- Embedded email record (`emails` collection). -/
structure Email where
  thread_id : Str
  sender : Option Str
  recipients : List Str
  subject : Str
  body : Str
  timestamp : Nat
deriving DecidableEq

/-- Payload of a timeline entry (the `"data"` field). -/
inductive EventData where
  | ofTicket : Ticket → EventData
  | ofCommit : Commit → EventData
  | ofEmail : Email → EventData
deriving DecidableEq

/-- Timeline entry: a dict `{"type": ..., "id": ..., "timestamp": ..., "data": ...}`. -/
structure TEvent where
  tag : String
  eid : Str
  timestamp : Nat
  data : EventData
deriving DecidableEq

/-! String scanning utilities: embeddings of the `re` calls in the source. -/

/-- Does `p` occur as a prefix of `s`? -/
def startsWith : Str → Str → Bool
  | [], _ => true
  | _ :: _, [] => false
  | p :: ps, c :: cs => p = c && startsWith ps cs

/-- Longest run of ASCII digits at the front of a string (greedy `\d+`). -/
def takeDigits : Str → Str
  | [] => []
  | c :: r => if c.isDigit then c :: takeDigits r else []

/-- The literal part of the task-id pattern `PROJ-\d+`. -/
def projPat : Str := ('P' :: 'R' :: 'O' :: 'J' :: '-' :: [])

/-- Try to match `PROJ-\d+` at the start of `s`; on success return the token
and the remaining input after the (greedy, maximal) match. -/
def matchPROJ (s : Str) : Option (Str × Str) :=
  if startsWith projPat s then
    let after := s.drop 5
    let ds := takeDigits after
    if ds = [] then none else some (projPat ++ ds, after.drop ds.length)
  else none

/-- Left-to-right non-overlapping scan for `PROJ-\d+`, fuel-driven; the fuel
is the input length, which suffices because every step consumes at least one
character. -/
def findPROJAux : Nat → Str → List Str
  | 0, _ => []
  | _ + 1, [] => []
  | fuel + 1, c :: rest =>
    match matchPROJ (c :: rest) with
    | some (tok, after) => tok :: findPROJAux fuel after
    | none => findPROJAux fuel rest

/-- Embedding of `re.findall(r'PROJ-\d+', s)`. -/
def findPROJ (s : Str) : List Str := findPROJAux s.length s

/-- Lower-case hex digit, the character class `[0-9a-f]`. -/
def isHexLower (c : Char) : Bool := c.isDigit || ('a' ≤ c && c ≤ 'f')

/-- Consume exactly `n` lower-case hex digits, returning the rest. -/
def hexRun : Nat → Str → Option Str
  | 0, s => some s
  | _ + 1, [] => none
  | n + 1, c :: r => if isHexLower c then hexRun n r else none

/-- Consume a literal dash. -/
def expectDash : Str → Option Str
  | '-' :: r => some r
  | _ => none

/-- Try to match the UUID pattern `[0-9a-f]{8}-[0-9a-f]{4}-[0-9a-f]{4}-[0-9a-f]{4}-[0-9a-f]{12}`
at the start of `s`, returning the remaining input on success. -/
def matchUUIDRest (s : Str) : Option Str :=
  ((((((((hexRun 8 s).bind expectDash).bind (hexRun 4)).bind expectDash).bind
    (hexRun 4)).bind expectDash).bind (hexRun 4)).bind expectDash).bind (hexRun 12)

/-- Left-to-right non-overlapping scan for UUID-shaped tokens (fuel-driven). -/
def findUUIDAux : Nat → Str → List Str
  | 0, _ => []
  | _ + 1, [] => []
  | fuel + 1, c :: rest =>
    match matchUUIDRest (c :: rest) with
    | some after => ((c :: rest).take 36) :: findUUIDAux fuel after
    | none => findUUIDAux fuel rest

/-- Embedding of `re.findall(r'[0-9a-f]{8}-...-[0-9a-f]{12}', s)`; every
match has length 36, so taking the first 36 characters recovers the token. -/
def findUUID (s : Str) : List Str := findUUIDAux s.length s

/-- Word character for `\w` (ASCII reading). -/
def isWordChar (c : Char) : Bool := c.isAlpha || c.isDigit || c = '_'

/-- Greedy `\w+` at the front of a string. -/
def takeWord : Str → Str
  | [] => []
  | c :: r => if isWordChar c then c :: takeWord r else []

/-- The literal part of the resolver pattern `Resolved by (\w+)`. -/
def resolvedByPat : Str :=
  ('R' :: 'e' :: 's' :: 'o' :: 'l' :: 'v' :: 'e' :: 'd' :: ' ' :: 'b' :: 'y' :: ' ' :: [])

/-- Embedding of `re.search(r"Resolved by (\w+)", s)`, returning the first
captured group of the leftmost match. -/
def findResolver : Str → Option Str
  | [] => none
  | c :: rest =>
    if startsWith resolvedByPat (c :: rest) then
      let w := takeWord ((c :: rest).drop resolvedByPat.length)
      if w = [] then findResolver rest else some w
    else findResolver rest

/-- ASCII lower-casing of a string, embedding `str.lower()` on the ASCII
texts the heuristics scan. -/
def lowerStr (s : Str) : Str := s.map Char.toLower

/-- Embedding of the Python substring test `needle in haystack`. -/
def isSubstrB : Str → Str → Bool
  | n, [] => n = []
  | n, c :: rest => startsWith n (c :: rest) || isSubstrB n rest

/-! Association-list embeddings of Python dict / defaultdict operations. -/

/-- Read a key from a defaultdict without inserting (`d[k]` value or default). -/
def dictGet {β : Type} (dflt : β) : List (Str × β) → Str → β
  | [], _ => dflt
  | p :: d, k => if p.1 = k then p.2 else dictGet dflt d k

/-- Plain dict lookup (`d.get(k)`), `none` when the key is absent. -/
def dictFind {β : Type} : List (Str × β) → Str → Option β
  | [], _ => none
  | p :: d, k => if p.1 = k then some p.2 else dictFind d k

/-- Is the key present (`k in d`)? -/
def containsKey {β : Type} (d : List (Str × β)) (k : Str) : Bool :=
  d.any (fun p => decide (p.1 = k))

/-- Defaultdict item mutation `d[k] = f(d[k])`: update the binding in place
if present, otherwise materialise the default and append the new binding at
the end (insertion order). -/
def dictUpd {β : Type} (dflt : β) (f : β → β) (k : Str) : List (Str × β) → List (Str × β)
  | [] => [(k, f dflt)]
  | p :: d => if p.1 = k then (p.1, f p.2) :: d else p :: dictUpd dflt f k d

/-- Mutation of an existing binding only (used where the source guards the
access with `if k in d:`). -/
def updExisting {β : Type} (f : β → β) (k : Str) : List (Str × β) → List (Str × β)
  | [] => []
  | p :: d => if p.1 = k then (p.1, f p.2) :: d else p :: updExisting f k d

/-! Stable sorting, the embedding of Python `list.sort(key=...)`. -/

/-- Stable ascending sort by a numeric key (`l.sort(key=key)`). -/
def sortAsc {α : Type} (key : α → Nat) (l : List α) : List α :=
  List.insertionSort (fun a b => key a ≤ key b) l

/-- Stable descending sort by a numeric key (`l.sort(key=key, reverse=True)`). -/
def sortDesc {α : Type} (key : α → Nat) (l : List α) : List α :=
  List.insertionSort (fun a b => key b ≤ key a) l

/-! Task correlator: embedding of `cluster_task_data` in `cluster_knowledge.py`. -/

/-- In-flight task cluster, the value type of the `task_clusters` defaultdict. -/
structure TaskAcc where
  jira : Option Ticket
  git_commits : List Commit
  emails : List Email
  timeline : List TEvent
deriving DecidableEq

/-- Default value manufactured by the `task_clusters` defaultdict. -/
def emptyTaskAcc : TaskAcc := { jira := none, git_commits := [], emails := [], timeline := [] }

abbrev TCMap := List (Str × TaskAcc)

/-- Finalised task cluster, an element of the returned `final_clusters` list. -/
structure TaskCluster where
  task_id : Str
  summary : Str
  status : Str
  assignee : Option Str
  created_at : Nat
  git_commits : List Commit
  emails : List Email
  timeline : List TEvent
deriving DecidableEq

/-- Step 2 of `cluster_task_data`: record the ticket and a `"jira"` timeline
event under the key `ticket["id"]`. -/
def processTicket (m : TCMap) (t : Ticket) : TCMap :=
  dictUpd emptyTaskAcc
    (fun acc => { acc with
      jira := some t,
      timeline := acc.timeline ++
        [{ tag := "jira", eid := t.id, timestamp := t.created_at, data := .ofTicket t }] })
    t.id m

/-- Step 3 of `cluster_task_data`: attach a commit under its `"ticket"` field
when that field is truthy (`if task_id:`). -/
def processCommit (m : TCMap) (c : Commit) : TCMap :=
  match c.ticket with
  | none => m
  | some tid =>
    if tid = [] then m
    else
      dictUpd emptyTaskAcc
        (fun acc => { acc with
          git_commits := acc.git_commits ++ [c],
          timeline := acc.timeline ++
            [{ tag := "git", eid := c.commit_id, timestamp := c.timestamp, data := .ofCommit c }] })
        tid m

/-- Append an email together with its `"email"` timeline event to a cluster. -/
def attachEmailTask (e : Email) (acc : TaskAcc) : TaskAcc :=
  { acc with
    emails := acc.emails ++ [e],
    timeline := acc.timeline ++
      [{ tag := "email", eid := e.thread_id, timestamp := e.timestamp, data := .ofEmail e }] }

/-- Task ids mined from an email: `set(re.findall(r'PROJ-\d+', subject + body))`.
The Python set is modelled as a deduplicated list. -/
def taskIdsOf (e : Email) : List Str := (findPROJ (e.subject ++ e.body)).dedup

/-- Commit ids mined from an email body: `re.findall(uuid_pattern, body)`. -/
def commitIdsOf (e : Email) : List Str := findUUID e.body

/-- One iteration of the direct mapping loop: `if task_id in task_clusters:`
then append the email and its timeline event to that cluster. -/
def directStep (e : Email) (m : TCMap) (tid : Str) : TCMap :=
  if containsKey m tid then updExisting (attachEmailTask e) tid m else m

/-- The direct mapping phase of step 4 (the `for task_id in task_ids` loop). -/
def processEmailDirect (m : TCMap) (e : Email) : TCMap :=
  (taskIdsOf e).foldl (directStep e) m

/-- One iteration of the UUID fallback over a mined commit id: every cluster
holding a commit with that id receives the email unless it already holds it. -/
def fallbackStep (e : Email) (m : TCMap) (cid : Str) : TCMap :=
  m.map (fun p =>
    if p.2.git_commits.any (fun c => decide (c.commit_id = cid)) then
      if e ∈ p.2.emails then p else (p.1, attachEmailTask e p.2)
    else p)

/-- Step 4 of `cluster_task_data` for one email: the direct loop always runs
(it is empty when no task id was found), and the UUID fallback runs only
under `if not task_ids:`. -/
def processEmail (m : TCMap) (e : Email) : TCMap :=
  if taskIdsOf e = [] then
    (commitIdsOf e).foldl (fallbackStep e) (processEmailDirect m e)
  else processEmailDirect m e

/-- Steps 2-4 of `cluster_task_data`: the fully populated, unsorted map. -/
def buildTaskMap (jira : List Ticket) (git : List Commit) (emails : List Email) : TCMap :=
  emails.foldl processEmail (git.foldl processCommit (jira.foldl processTicket []))

/-- Step 5: sort one cluster timeline chronologically (stable Python sort). -/
def sortTaskAcc (acc : TaskAcc) : TaskAcc :=
  { acc with timeline := sortAsc (fun ev => ev.timestamp) acc.timeline }

/-- Step 6 for one entry: clusters without a JIRA ticket are skipped, the
rest are flattened into the output record shape. -/
def mkTaskCluster (k : Str) (acc : TaskAcc) : Option TaskCluster :=
  match acc.jira with
  | none => none
  | some t => some
    { task_id := k, summary := t.summary, status := t.status, assignee := t.assignee,
      created_at := t.created_at, git_commits := acc.git_commits, emails := acc.emails,
      timeline := acc.timeline }

/-- Embedding of `cluster_task_data(jira_data, git_data, email_data)`. -/
def cluster_task_data (jira : List Ticket) (git : List Commit) (emails : List Email) :
    List TaskCluster :=
  (((buildTaskMap jira git emails).map (fun p => (p.1, sortTaskAcc p.2))).filterMap
    (fun p => mkTaskCluster p.1 p.2))

/-- Bookkeeping invariant of one task-map entry: the timeline holds one
`\"jira\"` event exactly when a ticket is stored, its length is that
indicator plus the number of commits and emails, and the stored ticket's
creation time stamps a `\"jira\"` event. -/
def taskInv (p : Str × TaskAcc) : Prop :=
  p.2.timeline.countP (fun ev => ev.tag == "jira") =
    (if p.2.jira.isSome then 1 else 0) ∧
  p.2.timeline.length =
    (if p.2.jira.isSome then 1 else 0) + p.2.git_commits.length + p.2.emails.length ∧
  ∀ t, p.2.jira = some t →
    ∃ ev ∈ p.2.timeline, ev.tag = "jira" ∧ ev.timestamp = t.created_at

/-! Employee correlator: embedding of `cluster_employee_data` in `cluster_employee.py`. -/

/-- In-flight employee cluster, the value type of the `employee_clusters` defaultdict. -/
structure EmpAcc where
  jira_assigned : List Ticket
  jira_resolved : List Ticket
  git_commits : List Commit
  emails_sent : List Email
  emails_received : List Email
  timeline : List TEvent
deriving DecidableEq

/-- Default value manufactured by the `employee_clusters` defaultdict. -/
def emptyEmpAcc : EmpAcc :=
  { jira_assigned := [], jira_resolved := [], git_commits := [],
    emails_sent := [], emails_received := [], timeline := [] }

abbrev EMap := List (Str × EmpAcc)

/-- The `activity_summary` dict of a finalised employee cluster. -/
structure ActivitySummary where
  jira_tickets_assigned : Nat
  jira_tickets_resolved : Nat
  git_commits : Nat
  emails_sent : Nat
  emails_received : Nat
  total_activity_count : Nat
deriving DecidableEq

/-- Finalised employee cluster, an element of the returned list. -/
structure EmployeeCluster where
  employee : Str
  activity_summary : ActivitySummary
  jira_assigned : List Ticket
  jira_resolved : List Ticket
  git_commits : List Commit
  emails_sent : List Email
  emails_received : List Email
  timeline : List TEvent
deriving DecidableEq

/-- Step 2 of `cluster_employee_data`: attach the ticket to a truthy assignee,
then to the resolver extracted from a truthy resolution text, if any. -/
def procTicketEmp (m : EMap) (t : Ticket) : EMap :=
  let m1 :=
    match t.assignee with
    | none => m
    | some a =>
      if a = [] then m
      else
        dictUpd emptyEmpAcc
          (fun acc => { acc with
            jira_assigned := acc.jira_assigned ++ [t],
            timeline := acc.timeline ++
              [{ tag := "jira_assigned", eid := t.id, timestamp := t.created_at,
                 data := .ofTicket t }] })
          a m
  match t.resolution with
  | none => m1
  | some r =>
    if r = [] then m1
    else
      match findResolver r with
      | none => m1
      | some resolver =>
        dictUpd emptyEmpAcc
          (fun acc => { acc with
            jira_resolved := acc.jira_resolved ++ [t],
            timeline := acc.timeline ++
              [{ tag := "jira_resolved", eid := t.id, timestamp := t.updated_at,
                 data := .ofTicket t }] })
          resolver m1

/-- Step 3 of `cluster_employee_data`: attach the commit to a truthy author. -/
def procCommitEmp (m : EMap) (c : Commit) : EMap :=
  match c.author with
  | none => m
  | some a =>
    if a = [] then m
    else
      dictUpd emptyEmpAcc
        (fun acc => { acc with
          git_commits := acc.git_commits ++ [c],
          timeline := acc.timeline ++
            [{ tag := "git_commit", eid := c.commit_id, timestamp := c.timestamp,
               data := .ofCommit c }] })
        a m

/-- Step 4 of `cluster_employee_data`: attach the email to a truthy sender,
then to every entry of the recipients list (no truthiness guard there). -/
def procEmailEmp (m : EMap) (e : Email) : EMap :=
  let m1 :=
    match e.sender with
    | none => m
    | some s =>
      if s = [] then m
      else
        dictUpd emptyEmpAcc
          (fun acc => { acc with
            emails_sent := acc.emails_sent ++ [e],
            timeline := acc.timeline ++
              [{ tag := "email_sent", eid := e.thread_id, timestamp := e.timestamp,
                 data := .ofEmail e }] })
          s m
  e.recipients.foldl
    (fun m r =>
      dictUpd emptyEmpAcc
        (fun acc => { acc with
          emails_received := acc.emails_received ++ [e],
          timeline := acc.timeline ++
            [{ tag := "email_received", eid := e.thread_id, timestamp := e.timestamp,
               data := .ofEmail e }] })
        r m)
    m1

/-- Steps 2-4 of `cluster_employee_data`: the populated, unsorted map. -/
def buildEmpMap (jira : List Ticket) (git : List Commit) (emails : List Email) : EMap :=
  emails.foldl procEmailEmp (git.foldl procCommitEmp (jira.foldl procTicketEmp []))

/-- Step 5: chronological (stable) sort of one employee timeline. -/
def sortEmpAcc (acc : EmpAcc) : EmpAcc :=
  { acc with timeline := sortAsc (fun ev => ev.timestamp) acc.timeline }

/-- The skip condition of step 6: no activity in any of the five lists. -/
def isEmptyEmpAcc (acc : EmpAcc) : Bool :=
  acc.jira_assigned.isEmpty && acc.jira_resolved.isEmpty && acc.git_commits.isEmpty &&
    acc.emails_sent.isEmpty && acc.emails_received.isEmpty

/-- Step 6 for one entry: compute the activity metrics and flatten. -/
def mkEmployeeCluster (k : Str) (acc : EmpAcc) : EmployeeCluster :=
  let total_jira := acc.jira_assigned.length + acc.jira_resolved.length
  let total_commits := acc.git_commits.length
  let total_emails := acc.emails_sent.length + acc.emails_received.length
  { employee := k,
    activity_summary :=
      { jira_tickets_assigned := acc.jira_assigned.length,
        jira_tickets_resolved := acc.jira_resolved.length,
        git_commits := total_commits,
        emails_sent := acc.emails_sent.length,
        emails_received := acc.emails_received.length,
        total_activity_count := total_jira + total_commits + total_emails },
    jira_assigned := acc.jira_assigned, jira_resolved := acc.jira_resolved,
    git_commits := acc.git_commits, emails_sent := acc.emails_sent,
    emails_received := acc.emails_received, timeline := acc.timeline }

/-- The `final_clusters` list before the final activity sort (encounter order). -/
def empFinalList (jira : List Ticket) (git : List Commit) (emails : List Email) :
    List EmployeeCluster :=
  ((buildEmpMap jira git emails).map (fun p => (p.1, sortEmpAcc p.2))).filterMap
    (fun p => if isEmptyEmpAcc p.2 then none else some (mkEmployeeCluster p.1 p.2))

/-- Embedding of `cluster_employee_data(jira_data, git_data, email_data)`. -/
def cluster_employee_data (jira : List Ticket) (git : List Commit) (emails : List Email) :
    List EmployeeCluster :=
  sortDesc (fun c => c.activity_summary.total_activity_count) (empFinalList jira git emails)

/-! Analytics engine: `analyze_employee_clusters`. -/

/-- Return shape of `analyze_employee_clusters`. -/
structure TeamStats where
  total_employees : Nat
  total_jira_tickets_assigned : Nat
  total_jira_tickets_resolved : Nat
  total_git_commits : Nat
  total_emails_sent : Nat
  total_emails_received : Nat
  potential_developers : List Str
  potential_managers : List Str
  potential_communicators : List Str
  top_code_contributors : List Str
  top_issue_resolvers : List Str
deriving DecidableEq

/-- The categorisation loop body of `analyze_employee_clusters`, an
`if`/`elif` over the activity summary, threading the three lists. -/
def categorizeStep (acc : List Str × List Str × List Str) (e : EmployeeCluster) :
    List Str × List Str × List Str :=
  let s := e.activity_summary
  if s.git_commits > s.emails_sent + s.emails_received then
    (acc.1 ++ [e.employee], acc.2.1, acc.2.2)
  else if s.emails_sent > s.git_commits * 2 then
    (acc.1,
      (if s.jira_tickets_assigned > 0 ∧ s.git_commits = 0 then acc.2.1 ++ [e.employee]
       else acc.2.1),
      acc.2.2 ++ [e.employee])
  else acc

/-- Embedding of `analyze_employee_clusters(employee_clusters)`. -/
def analyze_employee_clusters (ecs : List EmployeeCluster) : TeamStats :=
  let cat := ecs.foldl categorizeStep ([], [], [])
  { total_employees := ecs.length,
    total_jira_tickets_assigned := (ecs.map (fun e => e.activity_summary.jira_tickets_assigned)).sum,
    total_jira_tickets_resolved := (ecs.map (fun e => e.activity_summary.jira_tickets_resolved)).sum,
    total_git_commits := (ecs.map (fun e => e.activity_summary.git_commits)).sum,
    total_emails_sent := (ecs.map (fun e => e.activity_summary.emails_sent)).sum,
    total_emails_received := (ecs.map (fun e => e.activity_summary.emails_received)).sum,
    potential_developers := cat.1,
    potential_managers := cat.2.1,
    potential_communicators := cat.2.2,
    top_code_contributors :=
      ((sortDesc (fun e => e.activity_summary.git_commits) ecs).take 3).map
        (fun e => e.employee),
    top_issue_resolvers :=
      ((sortDesc (fun e => e.activity_summary.jira_tickets_resolved) ecs).take 3).map
        (fun e => e.employee) }

/-! Collaboration graph: `identify_collaboration_networks`. -/

abbrev Graph := List (Str × List (Str × Nat))

/-- One increment `collaboration_graph[a][b] += 1` on the nested defaultdicts. -/
def gBump (g : Graph) (a b : Str) : Graph :=
  dictUpd [] (fun inner => dictUpd 0 (fun n => n + 1) b inner) a g

/-- Edge weight read off the nested dicts (0 when absent, the defaultdict value). -/
def weight (g : Graph) (a b : Str) : Nat := dictGet 0 (dictGet [] g a) b

/-- Step 2 of `identify_collaboration_networks`: for each recipient of each
email, `if sender and recipient and sender != recipient` increment both
directions. -/
def collabEmailStep (g : Graph) (e : Email) : Graph :=
  e.recipients.foldl
    (fun g r =>
      match e.sender with
      | none => g
      | some s => if s ≠ [] ∧ r ≠ [] ∧ s ≠ r then gBump (gBump g s r) r s else g)
    g

/-- Set insertion in encounter order (`set.add`); iteration order of a Python
set is unspecified, and nothing proved below depends on it. -/
def addToSet (l : List Str) (a : Str) : List Str := if a ∈ l then l else l ++ [a]

/-- The `ticket_contributors` map: authors per truthy ticket reference. -/
def ticketContribs (git : List Commit) : List (Str × List Str) :=
  git.foldl
    (fun m c =>
      match c.ticket, c.author with
      | some tk, some au =>
        if tk ≠ [] ∧ au ≠ [] then dictUpd [] (fun s => addToSet s au) tk m else m
      | _, _ => m)
    []

/-- All index pairs `i < j` of a list, as ordered pairs. -/
def allPairs : List Str → List (Str × Str)
  | [] => []
  | a :: rest => rest.map (fun b => (a, b)) ++ allPairs rest

/-- Step 3 loop body: connect all pairs of contributors of one ticket (both
directions), guarded by `if len(contributors) > 1`. -/
def collabTicketStep (g : Graph) (contributors : List Str) : Graph :=
  if contributors.length > 1 then
    (allPairs contributors).foldl (fun g pr => gBump (gBump g pr.1 pr.2) pr.2 pr.1) g
  else g

/-- Steps 1-3 of `identify_collaboration_networks`: the populated graph.
Step 1 of the source computes a `jira_assignees` map that is never read
afterwards (dead code), so it contributes nothing here. -/
def collabGraphOf (_jira : List Ticket) (git : List Commit) (emails : List Email) : Graph :=
  (ticketContribs git).foldl (fun g p => collabTicketStep g p.2)
    (emails.foldl collabEmailStep [])

/-- A collaborator entry `{"colleague": ..., "strength": ...}`. -/
structure CollabEntry where
  colleague : Str
  strength : Nat
deriving DecidableEq

/-- A per-employee network record of the output list. -/
structure CollabNetwork where
  employee : Str
  total_collaborations : Nat
  collaborators : List CollabEntry
deriving DecidableEq

/-- Embedding of `identify_collaboration_networks`; the first parameter is
unused in the source as well. -/
def identify_collaboration_networks (_ecs : List EmployeeCluster) (jira : List Ticket)
    (git : List Commit) (emails : List Email) : List CollabNetwork :=
  let g := collabGraphOf jira git emails
  sortDesc (fun n => n.total_collaborations)
    (g.map (fun p =>
      { employee := p.1,
        total_collaborations := (p.2.map Prod.snd).sum,
        collaborators :=
          sortDesc (fun c => c.strength)
            (p.2.map (fun q => { colleague := q.1, strength := q.2 })) }))

/-! Skill extraction: `extract_skills_from_activity`. -/

/-- The fixed technology vocabulary. -/
def tech_terms : List Str :=
  [("python").toList, ("javascript").toList, ("react").toList, ("node").toList,
   ("api").toList, ("database").toList, ("sql").toList, ("aws").toList,
   ("docker").toList, ("kubernetes").toList, ("frontend").toList, ("backend").toList]

/-- The fixed action vocabulary. -/
def action_terms : List Str :=
  [("fix").toList, ("implement").toList, ("refactor").toList, ("optimize").toList,
   ("test").toList, ("deploy").toList]

/-- One `skills[term] += 1` on the per-employee defaultdict(int). -/
def bumpSkill (sk : List (Str × Nat)) (t : Str) : List (Str × Nat) :=
  dictUpd 0 (fun n => n + 1) t sk

/-- One vocabulary pass over one text: `for term in terms: if term in text: skills[term] += 1`. -/
def scanTerms : List Str → Str → List (Str × Nat) → List (Str × Nat)
  | [], _, sk => sk
  | t :: rest, text, sk =>
    scanTerms rest text (if isSubstrB t text then bumpSkill sk t else sk)

/-- Per-commit scan: technology terms then action terms over the lower-cased message. -/
def commitSkills (sk : List (Str × Nat)) (c : Commit) : List (Str × Nat) :=
  scanTerms action_terms (lowerStr c.message) (scanTerms tech_terms (lowerStr c.message) sk)

/-- Per-ticket scan: technology terms only, over the lower-cased summary. -/
def ticketSkills (sk : List (Str × Nat)) (t : Ticket) : List (Str × Nat) :=
  scanTerms tech_terms (lowerStr t.summary) sk

/-- The skills accumulated for one employee cluster (before sorting). -/
def extractSkillsCluster (ed : EmployeeCluster) : List (Str × Nat) :=
  (ed.jira_assigned ++ ed.jira_resolved).foldl ticketSkills
    (ed.git_commits.foldl commitSkills [])

/-- Embedding of `extract_skills_from_activity(employee_clusters)`: per
employee, the `(skill, mentions)` pairs sorted descending by count. -/
def extract_skills_from_activity (ecs : List EmployeeCluster) : List (Str × List (Str × Nat)) :=
  ecs.foldl
    (fun acc ed =>
      dictUpd [] (fun _ => sortDesc Prod.snd (extractSkillsCluster ed)) ed.employee acc)
    []

/-- Reference count for the amended skill claim: a vocabulary term is counted
once per commit message containing it (both vocabularies) and, for technology
terms only, once per ticket summary containing it. -/
def skillCountSpec (ed : EmployeeCluster) (t : Str) : Nat :=
  (if t ∈ tech_terms then
    ed.git_commits.countP (fun c => isSubstrB t (lowerStr c.message)) +
      (ed.jira_assigned ++ ed.jira_resolved).countP
        (fun tk => isSubstrB t (lowerStr tk.summary))
   else 0) +
  (if t ∈ action_terms then
    ed.git_commits.countP (fun c => isSubstrB t (lowerStr c.message))
   else 0)

/-! Concrete sample records used by the closed witness and counterexample
theorems below. -/

/-- Placeholder cluster for total reads from output lists (`List.headD`). -/
def defTaskCluster : TaskCluster :=
  { task_id := [], summary := [], status := [], assignee := none, created_at := 0,
    git_commits := [], emails := [], timeline := [] }

/-- Placeholder employee cluster for total reads from output lists. -/
def defEmployeeCluster : EmployeeCluster :=
  { employee := [],
    activity_summary :=
      { jira_tickets_assigned := 0, jira_tickets_resolved := 0, git_commits := 0,
        emails_sent := 0, emails_received := 0, total_activity_count := 0 },
    jira_assigned := [], jira_resolved := [], git_commits := [], emails_sent := [],
    emails_received := [], timeline := [] }

/-- Sample ticket `PROJ-1` assigned to alice, resolved by bob. -/
def wTicket : Ticket :=
  { id := ("PROJ-1").toList, summary := ("Fix login bug").toList, status := ("Open").toList,
    assignee := some (("alice").toList), created_at := 1, updated_at := 2,
    resolution := some (("Resolved by bob").toList) }

/-- Sample commit on `PROJ-1` with a UUID-shaped identifier. -/
def wCommit : Commit :=
  { commit_id := ("0123abcd-0123-0123-0123-0123456789ab").toList,
    author := some (("bob").toList), ticket := some (("PROJ-1").toList),
    message := ("fix api").toList, timestamp := 3 }

/-- Sample email that references `PROJ-1` directly in its subject. -/
def wEmailD : Email :=
  { thread_id := ("th1").toList, sender := some (("alice").toList),
    recipients := [("bob").toList], subject := ("PROJ-1 fix").toList,
    body := ("see details").toList, timestamp := 4 }

/-- Sample email with no task reference but the commit UUID in its body. -/
def wEmailF : Email :=
  { thread_id := ("th2").toList, sender := some (("carol").toList),
    recipients := [("alice").toList], subject := ("status update").toList,
    body := ("0123abcd-0123-0123-0123-0123456789ab").toList, timestamp := 5 }

/-- Email whose subject ends in `PROJ` and whose body starts with `-1`: the
concatenation contains a `PROJ-1` token though neither part does. -/
def eStraddle : Email :=
  { thread_id := ("th3").toList, sender := some (("alice").toList), recipients := [],
    subject := ("about PROJ").toList, body := ("-1 is done").toList, timestamp := 6 }

/-- Two distinct tickets sharing the identifier `PROJ-1`. -/
def tDup1 : Ticket :=
  { id := ("PROJ-1").toList, summary := ("one").toList, status := ("Open").toList,
    assignee := none, created_at := 1, updated_at := 1, resolution := none }

/-- Second ticket with the duplicated identifier. -/
def tDup2 : Ticket :=
  { id := ("PROJ-1").toList, summary := ("two").toList, status := ("Done").toList,
    assignee := none, created_at := 2, updated_at := 2, resolution := none }

/-- Ticket whose identifier is the empty string. -/
def tEmptyId : Ticket :=
  { id := [], summary := ("ghost").toList, status := ("Open").toList, assignee := none,
    created_at := 1, updated_at := 1, resolution := none }

/-- Commit whose ticket reference is the empty string (falsy in Python). -/
def cEmptyRef : Commit :=
  { commit_id := ("c0").toList, author := some (("alice").toList), ticket := some [],
    message := ("work").toList, timestamp := 2 }

/-- Commit with no ticket reference at all. -/
def cNoRef : Commit :=
  { commit_id := ("c1").toList, author := some (("alice").toList), ticket := none,
    message := ("chore").toList, timestamp := 3 }

/-- Commit message containing the action term `fix` twice. -/
def cFixFix : Commit :=
  { commit_id := ("c9").toList, author := some (("dana").toList), ticket := none,
    message := ("fix fix").toList, timestamp := 7 }

/-- Ticket summary containing the action term `deploy`. -/
def tDeploy : Ticket :=
  { id := ("PROJ-2").toList, summary := ("deploy now").toList, status := ("Open").toList,
    assignee := some (("dana").toList), created_at := 4, updated_at := 5, resolution := none }

/-- Employee cluster record feeding the skill-extraction counterexample. -/
def edSkills : EmployeeCluster :=
  { employee := ("dana").toList,
    activity_summary :=
      { jira_tickets_assigned := 1, jira_tickets_resolved := 0, git_commits := 1,
        emails_sent := 0, emails_received := 0, total_activity_count := 2 },
    jira_assigned := [tDeploy], jira_resolved := [], git_commits := [cFixFix],
    emails_sent := [], emails_received := [], timeline := [] }

/-! Generic lemmas about the dict embedding. -/

theorem dictGet_dictUpd {β : Type} (dflt : β) (f : β → β) (k k' : Str) (d : List (Str × β)) :
    dictGet dflt (dictUpd dflt f k d) k' =
      if k' = k then f (dictGet dflt d k) else dictGet dflt d k' := by
  induction d with
  | nil =>
    rcases eq_or_ne k' k with h | h
    · subst h; simp [dictUpd, dictGet]
    · simp [dictUpd, dictGet, h, Ne.symm h]
  | cons p d ih =>
    by_cases hpk : p.1 = k
    · rcases eq_or_ne k' k with h | h
      · subst h; simp [dictUpd, dictGet, hpk]
      · have hpk' : p.1 ≠ k' := by rw [hpk]; exact Ne.symm h
        simp [dictUpd, dictGet, hpk, hpk', h, Ne.symm h]
    · by_cases hpk' : p.1 = k'
      · have h : k' ≠ k := by
          intro hh
          exact hpk (by rw [hpk', hh])
        simp [dictUpd, dictGet, hpk, hpk', h]
      · simp [dictUpd, dictGet, hpk, hpk', ih]

theorem dictFind_none_of_not_containsKey {β : Type} (d : List (Str × β)) (k : Str)
    (h : containsKey d k = false) : dictFind d k = none := by
  induction d with
  | nil => rfl
  | cons p d ih =>
    simp only [containsKey, List.any_cons, Bool.or_eq_false_iff,
      decide_eq_false_iff_not] at h
    exact by simp [dictFind, h.1, ih (by simp [containsKey, h.2])]

theorem dictFind_updExisting {β : Type} (f : β → β) (k k' : Str) (d : List (Str × β)) :
    dictFind (updExisting f k d) k' =
      (dictFind d k').map (fun v => if k' = k then f v else v) := by
  induction d with
  | nil => simp [updExisting, dictFind]
  | cons p d ih =>
    by_cases hpk : p.1 = k
    · by_cases hpk' : p.1 = k'
      · have h : k' = k := by rw [← hpk', hpk]
        simp [updExisting, dictFind, hpk, hpk', h]
      · have h : k' ≠ k := fun hh => hpk' (by rw [hpk, hh])
        simp only [updExisting, if_pos hpk, dictFind, if_neg hpk']
        have hpk'' : ¬((p.1, f p.2).1 = k') := hpk'
        cases hd : dictFind d k' <;> simp [h, hd]
    · by_cases hpk' : p.1 = k'
      · have h : k' ≠ k := fun hh => hpk (by rw [hpk', hh])
        simp [updExisting, dictFind, hpk, hpk', h]
      · simp [updExisting, dictFind, hpk, hpk', ih]

theorem containsKey_dictUpd {β : Type} (dflt : β) (f : β → β) (k k' : Str)
    (d : List (Str × β)) :
    containsKey (dictUpd dflt f k d) k' = (decide (k' = k) || containsKey d k') := by
  induction d with
  | nil =>
    rcases eq_or_ne k' k with h | h
    · subst h; simp [dictUpd, containsKey]
    · simp [dictUpd, containsKey, h, Ne.symm h]
  | cons p d ih =>
    by_cases hpk : p.1 = k
    · rcases eq_or_ne k' k with h | h
      · subst h; simp [dictUpd, containsKey, hpk]
      · simp [dictUpd, containsKey, hpk, h]
    · simp only [dictUpd, if_neg hpk, containsKey, List.any_cons] at ih ⊢
      rw [ih, Bool.or_left_comm]

theorem mem_keys_dictUpd {β : Type} (dflt : β) (f : β → β) (k a : Str)
    (d : List (Str × β)) :
    a ∈ (dictUpd dflt f k d).map Prod.fst ↔ a = k ∨ a ∈ d.map Prod.fst := by
  induction d with
  | nil => simp [dictUpd]
  | cons p d ih =>
    by_cases hpk : p.1 = k
    · simp only [dictUpd, if_pos hpk, List.map_cons, List.mem_cons]
      rw [hpk]
      tauto
    · simp only [dictUpd, if_neg hpk, List.map_cons, List.mem_cons, ih]
      tauto

theorem nodupKeys_dictUpd {β : Type} (dflt : β) (f : β → β) (k : Str) (d : List (Str × β))
    (h : (d.map Prod.fst).Nodup) : ((dictUpd dflt f k d).map Prod.fst).Nodup := by
  induction d with
  | nil => simp [dictUpd]
  | cons p d ih =>
    simp only [List.map_cons, List.nodup_cons] at h
    by_cases hpk : p.1 = k
    · simp only [dictUpd, if_pos hpk, List.map_cons, List.nodup_cons]
      exact ⟨h.1, h.2⟩
    · simp only [dictUpd, if_neg hpk, List.map_cons, List.nodup_cons]
      refine ⟨?_, ih h.2⟩
      intro hmem
      rcases (mem_keys_dictUpd dflt f k p.1 d).mp hmem with hk | hk
      · exact hpk hk
      · exact h.1 hk

theorem keys_updExisting {β : Type} (f : β → β) (k : Str) (d : List (Str × β)) :
    (updExisting f k d).map Prod.fst = d.map Prod.fst := by
  induction d with
  | nil => rfl
  | cons p d ih =>
    by_cases hpk : p.1 = k <;> simp [updExisting, hpk, ih]

theorem dictUpd_forall {β : Type} {P : Str × β → Prop} (dflt : β) (f : β → β) (k : Str)
    (h2 : P (k, f dflt)) (h3 : ∀ v, P (k, v) → P (k, f v)) :
    ∀ (d : List (Str × β)), (∀ e ∈ d, P e) → ∀ e ∈ dictUpd dflt f k d, P e
  | [], _ => by simpa [dictUpd] using h2
  | p :: d, h1 => by
    by_cases hpk : p.1 = k
    · intro e he
      simp only [dictUpd, if_pos hpk] at he
      rcases List.mem_cons.mp he with h | h
      · subst h
        have hp : P (k, p.2) := by rw [← hpk]; exact h1 p (by simp)
        have := h3 p.2 hp
        rw [hpk]; exact this
      · exact h1 e (List.mem_cons_of_mem _ h)
    · intro e he
      simp only [dictUpd, if_neg hpk] at he
      rcases List.mem_cons.mp he with h | h
      · rw [h]; exact h1 p (by simp)
      · exact dictUpd_forall dflt f k h2 h3 d
          (fun e' he' => h1 e' (List.mem_cons_of_mem _ he')) e h

theorem updExisting_forall {β : Type} {P : Str × β → Prop} (f : β → β) (k : Str)
    (h3 : ∀ v, P (k, v) → P (k, f v)) :
    ∀ (d : List (Str × β)), (∀ e ∈ d, P e) → ∀ e ∈ updExisting f k d, P e
  | [], _ => by intro e he; simp [updExisting] at he
  | p :: d, h1 => by
    by_cases hpk : p.1 = k
    · intro e he
      simp only [updExisting, if_pos hpk] at he
      rcases List.mem_cons.mp he with h | h
      · subst h
        have hp : P (k, p.2) := by rw [← hpk]; exact h1 p (by simp)
        have := h3 p.2 hp
        rw [hpk]; exact this
      · exact h1 e (List.mem_cons_of_mem _ h)
    · intro e he
      simp only [updExisting, if_neg hpk] at he
      rcases List.mem_cons.mp he with h | h
      · rw [h]; exact h1 p (by simp)
      · exact updExisting_forall f k h3 d
          (fun e' he' => h1 e' (List.mem_cons_of_mem _ he')) e h

theorem dictGet_proj {β γ : Type} (π : β → γ) (dflt : β) (f : β → β) (k k' : Str)
    (d : List (Str × β)) (hf : ∀ v, π (f v) = π v) :
    π (dictGet dflt (updExisting f k d) k') = π (dictGet dflt d k') := by
  induction d with
  | nil => rfl
  | cons p d ih =>
    by_cases hpk : p.1 = k
    · by_cases hpk' : p.1 = k'
      · have hkk : k = k' := by rw [← hpk, hpk']
        simp only [updExisting, if_pos hpk, dictGet]
        rw [if_pos hpk', if_pos hpk', hf]
      · simp only [updExisting, if_pos hpk, dictGet]
        rw [if_neg hpk', if_neg hpk']
    · by_cases hpk' : p.1 = k'
      · simp only [updExisting, if_neg hpk, dictGet]
        rw [if_pos hpk', if_pos hpk']
      · simp only [updExisting, if_neg hpk, dictGet]
        rw [if_neg hpk', if_neg hpk', ih]

theorem dictGet_map_proj {β γ : Type} (π : β → γ) (dflt : β)
    (g : Str × β → Str × β) (k : Str) (d : List (Str × β))
    (hk : ∀ p, (g p).1 = p.1) (hv : ∀ p, π (g p).2 = π p.2) :
    π (dictGet dflt (d.map g) k) = π (dictGet dflt d k) := by
  induction d with
  | nil => rfl
  | cons p d ih =>
    by_cases hpk : p.1 = k
    · have : (g p).1 = k := by rw [hk]; exact hpk
      simp [dictGet, hpk, this, hv]
    · have : (g p).1 ≠ k := by rw [hk]; exact hpk
      simp [dictGet, hpk, this, ih]

theorem foldl_pres {α σ : Type} (f : σ → α → σ) (P : σ → Prop) (l : List α)
    (h : ∀ a ∈ l, ∀ s, P s → P (f s a)) : ∀ s, P s → P (l.foldl f s) := by
  induction l with
  | nil => intro s hs; simpa using hs
  | cons a l ih =>
    intro s hs
    simp only [List.foldl_cons]
    exact ih (fun a' ha' s' hs' => h a' (List.mem_cons_of_mem _ ha') s' hs')
      (f s a) (h a (by simp) s hs)

/-! Generic lemmas about the stable sorts. -/

theorem sortAsc_pairwise {α : Type} (key : α → Nat) (l : List α) :
    (sortAsc key l).Pairwise (fun a b => key a ≤ key b) := by
  haveI : IsTotal α (fun a b => key a ≤ key b) := ⟨fun a b => Nat.le_total (key a) (key b)⟩
  haveI : IsTrans α (fun a b => key a ≤ key b) :=
    ⟨fun _ _ _ hab hbc => Nat.le_trans hab hbc⟩
  exact List.sorted_insertionSort _ l

theorem sortDesc_pairwise {α : Type} (key : α → Nat) (l : List α) :
    (sortDesc key l).Pairwise (fun a b => key b ≤ key a) := by
  haveI : IsTotal α (fun a b => key b ≤ key a) := ⟨fun a b => Nat.le_total (key b) (key a)⟩
  haveI : IsTrans α (fun a b => key b ≤ key a) :=
    ⟨fun _ _ _ hab hbc => Nat.le_trans hbc hab⟩
  exact List.sorted_insertionSort _ l

theorem sortAsc_perm {α : Type} (key : α → Nat) (l : List α) :
    List.Perm (sortAsc key l) l :=
  List.perm_insertionSort _ l

theorem sortDesc_perm {α : Type} (key : α → Nat) (l : List α) :
    List.Perm (sortDesc key l) l :=
  List.perm_insertionSort _ l

theorem filter_orderedInsert_pos {α : Type} (r : α → α → Prop) [DecidableRel r]
    (p : α → Bool) (a : α) (hpa : p a = true)
    (hcomp : ∀ x y, p x = true → p y = true → r x y) (l : List α) :
    (List.orderedInsert r a l).filter p = a :: l.filter p := by
  induction l with
  | nil => simp [List.orderedInsert, hpa]
  | cons b l ih =>
    by_cases hr : r a b
    · simp [List.orderedInsert, hr, hpa]
    · have hpb : p b = false := by
        cases hb : p b
        · rfl
        · exact absurd (hcomp a b hpa hb) hr
      simp [List.orderedInsert, hr, hpb, ih]

theorem filter_orderedInsert_neg {α : Type} (r : α → α → Prop) [DecidableRel r]
    (p : α → Bool) (a : α) (hpa : p a = false) (l : List α) :
    (List.orderedInsert r a l).filter p = l.filter p := by
  induction l with
  | nil => simp [List.orderedInsert, hpa]
  | cons b l ih =>
    by_cases hr : r a b
    · simp [List.orderedInsert, hr, hpa]
    · cases hb : p b <;> simp [List.orderedInsert, hr, hb, hpa, ih]

theorem filter_insertionSort {α : Type} (r : α → α → Prop) [DecidableRel r]
    (p : α → Bool) (hcomp : ∀ x y, p x = true → p y = true → r x y) (l : List α) :
    (List.insertionSort r l).filter p = l.filter p := by
  induction l with
  | nil => rfl
  | cons a l ih =>
    rw [List.insertionSort]
    cases hpa : p a
    · rw [filter_orderedInsert_neg r p a hpa, ih]
      simp [List.filter_cons, hpa]
    · rw [filter_orderedInsert_pos r p a hpa hcomp, ih]
      simp [List.filter_cons, hpa]

theorem sortAsc_filter {α : Type} (key : α → Nat) (v : Nat) (l : List α) :
    (sortAsc key l).filter (fun a => key a == v) = l.filter (fun a => key a == v) := by
  refine filter_insertionSort _ _ ?_ l
  intro x y hx hy
  have hx' : key x = v := by simpa using hx
  have hy' : key y = v := by simpa using hy
  omega

theorem sortDesc_filter {α : Type} (key : α → Nat) (v : Nat) (l : List α) :
    (sortDesc key l).filter (fun a => key a == v) = l.filter (fun a => key a == v) := by
  refine filter_insertionSort _ _ ?_ l
  intro x y hx hy
  have hx' : key x = v := by simpa using hx
  have hy' : key y = v := by simpa using hy
  omega

/-! Claim C3: role classification heuristics. -/

theorem categorize_foldl (ecs : List EmployeeCluster) :
    ∀ (d m c : List Str),
      ecs.foldl categorizeStep (d, m, c) =
        (d ++ (ecs.filter (fun e => decide (e.activity_summary.git_commits >
            e.activity_summary.emails_sent + e.activity_summary.emails_received))).map
            (fun e => e.employee),
         m ++ (ecs.filter (fun e => decide (e.activity_summary.emails_sent >
            e.activity_summary.git_commits * 2 ∧
            e.activity_summary.jira_tickets_assigned > 0 ∧
            e.activity_summary.git_commits = 0))).map (fun e => e.employee),
         c ++ (ecs.filter (fun e => decide (e.activity_summary.emails_sent >
            e.activity_summary.git_commits * 2))).map (fun e => e.employee)) := by
  induction ecs with
  | nil => simp
  | cons e ecs ih =>
    intro d m c
    simp only [List.foldl_cons]
    by_cases h1 : e.activity_summary.git_commits >
        e.activity_summary.emails_sent + e.activity_summary.emails_received
    · have h2 : ¬(e.activity_summary.emails_sent > e.activity_summary.git_commits * 2) := by
        omega
      have h3 : ¬(e.activity_summary.emails_sent > e.activity_summary.git_commits * 2 ∧
          e.activity_summary.jira_tickets_assigned > 0 ∧
          e.activity_summary.git_commits = 0) := by
        rintro ⟨hc, -, -⟩; exact h2 hc
      have hstep : categorizeStep (d, m, c) e = (d ++ [e.employee], m, c) := by
        simp only [categorizeStep]
        rw [if_pos h1]
      have fd : (decide (e.activity_summary.git_commits >
          e.activity_summary.emails_sent + e.activity_summary.emails_received)) = true :=
        decide_eq_true h1
      have fm : (decide (e.activity_summary.emails_sent >
          e.activity_summary.git_commits * 2 ∧
          e.activity_summary.jira_tickets_assigned > 0 ∧
          e.activity_summary.git_commits = 0)) = false := decide_eq_false h3
      have fc : (decide (e.activity_summary.emails_sent >
          e.activity_summary.git_commits * 2)) = false := decide_eq_false h2
      rw [hstep, ih]
      simp only [List.filter_cons, fd, fm, fc, if_true, if_false, List.map_cons]
      simp
    · by_cases h2 : e.activity_summary.emails_sent > e.activity_summary.git_commits * 2
      · have fd : (decide (e.activity_summary.git_commits >
            e.activity_summary.emails_sent + e.activity_summary.emails_received)) = false :=
          decide_eq_false h1
        have fc : (decide (e.activity_summary.emails_sent >
            e.activity_summary.git_commits * 2)) = true := decide_eq_true h2
        by_cases h3 : e.activity_summary.jira_tickets_assigned > 0 ∧
            e.activity_summary.git_commits = 0
        · have hstep : categorizeStep (d, m, c) e =
              (d, m ++ [e.employee], c ++ [e.employee]) := by
            simp only [categorizeStep]
            rw [if_neg h1, if_pos h2, if_pos h3]
          have fm : (decide (e.activity_summary.emails_sent >
              e.activity_summary.git_commits * 2 ∧
              e.activity_summary.jira_tickets_assigned > 0 ∧
              e.activity_summary.git_commits = 0)) = true :=
            decide_eq_true ⟨h2, h3.1, h3.2⟩
          rw [hstep, ih]
          simp only [List.filter_cons, fd, fm, fc, if_true, if_false, List.map_cons]
          simp
        · have hstep : categorizeStep (d, m, c) e = (d, m, c ++ [e.employee]) := by
            simp only [categorizeStep]
            rw [if_neg h1, if_pos h2, if_neg h3]
          have fm : (decide (e.activity_summary.emails_sent >
              e.activity_summary.git_commits * 2 ∧
              e.activity_summary.jira_tickets_assigned > 0 ∧
              e.activity_summary.git_commits = 0)) = false :=
            decide_eq_false (fun hh => h3 ⟨hh.2.1, hh.2.2⟩)
          rw [hstep, ih]
          simp only [List.filter_cons, fd, fm, fc, if_true, if_false, List.map_cons]
          simp
      · have hstep : categorizeStep (d, m, c) e = (d, m, c) := by
          simp only [categorizeStep]
          rw [if_neg h1, if_neg h2]
        have fd : (decide (e.activity_summary.git_commits >
            e.activity_summary.emails_sent + e.activity_summary.emails_received)) = false :=
          decide_eq_false h1
        have fc : (decide (e.activity_summary.emails_sent >
            e.activity_summary.git_commits * 2)) = false := decide_eq_false h2
        have fm : (decide (e.activity_summary.emails_sent >
            e.activity_summary.git_commits * 2 ∧
            e.activity_summary.jira_tickets_assigned > 0 ∧
            e.activity_summary.git_commits = 0)) = false :=
          decide_eq_false (fun hh => h2 hh.1)
        rw [hstep, ih]
        simp only [List.filter_cons, fd, fm, fc, if_true, if_false]
        simp

/-- Claim C3: `analyze_employee_clusters` lists a person among
`potential_developers` exactly when their commit count exceeds their combined
email count, among `potential_communicators` exactly when their sent-email
count exceeds twice their commit count, and among `potential_managers`
exactly when they are a communicator candidate with at least one assigned
ticket and zero commits; the conditions act independently on each record
(the source's `elif` cannot mask a communicator, because the developer and
communicator conditions are arithmetically incompatible). -/
theorem C3_role_classification (ecs : List EmployeeCluster) :
    (analyze_employee_clusters ecs).potential_developers =
      (ecs.filter (fun e => decide (e.activity_summary.git_commits >
        e.activity_summary.emails_sent + e.activity_summary.emails_received))).map
        (fun e => e.employee) ∧
    (analyze_employee_clusters ecs).potential_communicators =
      (ecs.filter (fun e => decide (e.activity_summary.emails_sent >
        e.activity_summary.git_commits * 2))).map (fun e => e.employee) ∧
    (analyze_employee_clusters ecs).potential_managers =
      (ecs.filter (fun e => decide (e.activity_summary.emails_sent >
        e.activity_summary.git_commits * 2 ∧
        e.activity_summary.jira_tickets_assigned > 0 ∧
        e.activity_summary.git_commits = 0))).map (fun e => e.employee) := by
  have h := categorize_foldl ecs [] [] []
  refine ⟨?_, ?_, ?_⟩ <;>
    · simp only [analyze_employee_clusters]
      rw [h]
      simp

/-! Claim C8: symmetry of the collaboration graph. -/

theorem weight_gBump (g : Graph) (x y a b : Str) :
    weight (gBump g x y) a b = weight g a b + (if a = x ∧ b = y then 1 else 0) := by
  unfold weight gBump
  rw [dictGet_dictUpd]
  by_cases hax : a = x
  · rw [if_pos hax, dictGet_dictUpd]
    by_cases hby : b = y
    · rw [if_pos hby, if_pos ⟨hax, hby⟩, hax, hby]
    · rw [if_neg hby, if_neg (fun hh => hby hh.2), hax, Nat.add_zero]
  · rw [if_neg hax, if_neg (fun hh => hax hh.1), Nat.add_zero]

theorem weight_bump2 (g : Graph) (x y a b : Str) :
    weight (gBump (gBump g x y) y x) a b =
      weight g a b + (if a = x ∧ b = y then 1 else 0) +
        (if a = y ∧ b = x then 1 else 0) := by
  rw [weight_gBump, weight_gBump]

theorem sym_bump2 (g : Graph) (x y : Str)
    (h : ∀ a b, weight g a b = weight g b a) :
    ∀ a b, weight (gBump (gBump g x y) y x) a b =
      weight (gBump (gBump g x y) y x) b a := by
  intro a b
  rw [weight_bump2, weight_bump2, h a b]
  have e1 : (b = x ∧ a = y) = (a = y ∧ b = x) := propext and_comm
  have e2 : (b = y ∧ a = x) = (a = x ∧ b = y) := propext and_comm
  simp only [e1, e2]
  exact Nat.add_right_comm _ _ _

theorem sym_collabEmailStep (e : Email) (g : Graph)
    (h : ∀ a b, weight g a b = weight g b a) :
    ∀ a b, weight (collabEmailStep g e) a b = weight (collabEmailStep g e) b a := by
  unfold collabEmailStep
  refine foldl_pres _ (fun g => ∀ a b, weight g a b = weight g b a) e.recipients ?_ g h
  intro r _ g hg
  cases e.sender with
  | none => exact hg
  | some s =>
    by_cases hc : s ≠ [] ∧ r ≠ [] ∧ s ≠ r
    · simpa [hc] using sym_bump2 g s r hg
    · simpa [hc] using hg

theorem sym_collabTicketStep (contributors : List Str) (g : Graph)
    (h : ∀ a b, weight g a b = weight g b a) :
    ∀ a b, weight (collabTicketStep g contributors) a b =
      weight (collabTicketStep g contributors) b a := by
  unfold collabTicketStep
  by_cases hl : contributors.length > 1
  · rw [if_pos hl]
    refine foldl_pres _ (fun g => ∀ a b, weight g a b = weight g b a) _ ?_ g h
    intro pr _ g hg
    exact sym_bump2 g pr.1 pr.2 hg
  · rw [if_neg hl]; exact h

/-- Claim C8: the collaboration graph accumulated by
`identify_collaboration_networks` (email exchanges and shared-ticket
contributor pairs, both incremented in the two directions) is symmetric:
the edge weight from `a` to `b` always equals the edge weight from `b`
to `a`. -/
theorem C8_collab_symmetry (jira : List Ticket) (git : List Commit) (emails : List Email)
    (a b : Str) :
    weight (collabGraphOf jira git emails) a b =
      weight (collabGraphOf jira git emails) b a := by
  unfold collabGraphOf
  refine foldl_pres _ (fun g => ∀ a b, weight g a b = weight g b a) _ ?_ _ ?_ a b
  · intro p _ g hg
    exact sym_collabTicketStep p.2 g hg
  · refine foldl_pres _ (fun g => ∀ a b, weight g a b = weight g b a) _ ?_ [] ?_
    · intro e _ g hg
      exact sym_collabEmailStep e g hg
    · intro a b; rfl

/-! Claim C1: direct email-to-task attachment. -/

theorem dictFind_directStep (e : Email) (m : TCMap) (t k : Str) :
    dictFind (directStep e m t) k =
      (dictFind m k).map (fun v => if k = t then attachEmailTask e v else v) := by
  unfold directStep
  by_cases hc : containsKey m t
  · rw [if_pos hc, dictFind_updExisting]
  · rw [if_neg hc]
    by_cases hkt : k = t
    · rw [hkt, dictFind_none_of_not_containsKey m t (by simpa using hc)]
      rfl
    · cases hd : dictFind m k <;> simp [hkt, hd]

theorem dictFind_directFold (e : Email) :
    ∀ (ts : List Str), ts.Nodup → ∀ (m : TCMap) (k : Str),
      dictFind (ts.foldl (directStep e) m) k =
        (dictFind m k).map (fun v => if k ∈ ts then attachEmailTask e v else v)
  | [], _, m, k => by
    cases hd : dictFind m k <;> simp [hd]
  | t :: ts, hnd, m, k => by
    simp only [List.foldl_cons]
    have hnd' : ts.Nodup := (List.nodup_cons.mp hnd).2
    rw [dictFind_directFold e ts hnd' (directStep e m t) k, dictFind_directStep,
      Option.map_map]
    by_cases hkt : k = t
    · subst hkt
      have hknot : k ∉ ts := (List.nodup_cons.mp hnd).1
      cases hd : dictFind m k <;> simp [hd, hknot, Function.comp]
    · by_cases hkts : k ∈ ts <;>
        · cases hd : dictFind m k <;> simp [hd, hkt, hkts, Function.comp]

theorem dictFind_processEmailDirect (m : TCMap) (e : Email) (k : Str) :
    dictFind (processEmailDirect m e) k =
      (dictFind m k).map (fun v => if k ∈ taskIdsOf e then attachEmailTask e v else v) :=
  dictFind_directFold e (taskIdsOf e) (List.nodup_dedup _) m k

/-- Claim C1 counterexample: with one ticket `PROJ-1` and an email whose
subject is `about PROJ` and whose body is `-1 is done`, the token `PROJ-1`
occurs in neither the subject nor the body, yet the cluster keyed `PROJ-1`
receives the email, because the source scans the concatenation
`subject + body` where the token straddles the boundary. -/
theorem C1_counterexample :
    ¬ (∀ c ∈ cluster_task_data [wTicket] [] [eStraddle],
        (c.task_id ∉ findPROJ eStraddle.subject ∧ c.task_id ∉ findPROJ eStraddle.body) →
          c.emails = []) := by
  decide

/-- Claim C1 (amended): for every email, the direct path of
`cluster_task_data` attaches the email, with its corresponding `"email"`
timeline event, to exactly those existing task clusters whose key occurs as
a `PROJ-<digits>` token of the concatenation of the email's subject and
body; every other cluster, and every key without a cluster, is left
untouched by the direct path. -/
theorem C1_direct_attachment (m : TCMap) (e : Email) (k : Str) :
    dictFind (processEmailDirect m e) k =
      (dictFind m k).map
        (fun acc => if k ∈ (findPROJ (e.subject ++ e.body)).dedup
          then attachEmailTask e acc else acc) :=
  dictFind_processEmailDirect m e k

/-! Claim C2: skill extraction counts. -/

theorem dictGet_of_not_contains {β : Type} (dflt : β) (d : List (Str × β)) (k : Str)
    (h : containsKey d k = false) : dictGet dflt d k = dflt := by
  induction d with
  | nil => rfl
  | cons p d ih =>
    simp only [containsKey, List.any_cons, Bool.or_eq_false_iff,
      decide_eq_false_iff_not] at h
    exact by simp [dictGet, h.1, ih (by simp [containsKey, h.2])]

theorem mem_of_contains {β : Type} (dflt : β) (d : List (Str × β)) (k : Str)
    (h : containsKey d k = true) : (k, dictGet dflt d k) ∈ d := by
  induction d with
  | nil => simp [containsKey] at h
  | cons p d ih =>
    by_cases hpk : p.1 = k
    · have hval : dictGet dflt (p :: d) k = p.2 := by simp [dictGet, hpk]
      rw [hval, ← hpk]
      exact List.mem_cons_self _ _
    · have h' : containsKey d k = true := by
        have hh := h
        simp only [containsKey, List.any_cons, decide_eq_false hpk, Bool.false_or] at hh
        exact hh
      have hval : dictGet dflt (p :: d) k = dictGet dflt d k := by simp [dictGet, hpk]
      rw [hval]
      exact List.mem_cons_of_mem _ (ih h')

theorem mem_dict_iff {β : Type} (dflt : β) (k : Str) (v : β) :
    ∀ (d : List (Str × β)), (d.map Prod.fst).Nodup →
      ((k, v) ∈ d ↔ (containsKey d k = true ∧ dictGet dflt d k = v))
  | [], _ => by simp [containsKey, dictGet]
  | p :: d, hnd => by
    rw [List.map_cons, List.nodup_cons] at hnd
    obtain ⟨hknotin, hnd'⟩ := hnd
    by_cases hpk : p.1 = k
    · constructor
      · intro hm
        rcases List.mem_cons.mp hm with h | h
        · refine ⟨by simp [containsKey, hpk], ?_⟩
          rw [← h] at hpk ⊢
          simp [dictGet]
        · exfalso
          apply hknotin
          rw [hpk]
          exact List.mem_map.mpr ⟨(k, v), h, rfl⟩
      · rintro ⟨-, hget⟩
        have hv : dictGet dflt (p :: d) k = p.2 := by simp [dictGet, hpk]
        rw [hv] at hget
        rw [← hget, ← hpk]
        exact List.mem_cons_self _ _
    · constructor
      · intro hm
        rcases List.mem_cons.mp hm with h | h
        · exfalso; apply hpk; rw [← h]
        · have := (mem_dict_iff dflt k v d hnd').mp h
          refine ⟨?_, ?_⟩
          · simp only [containsKey, List.any_cons, decide_eq_false hpk, Bool.false_or]
            exact this.1
          · simp only [dictGet, if_neg hpk]
            exact this.2
      · rintro ⟨hc, hget⟩
        have hc' : containsKey d k = true := by
          simp only [containsKey, List.any_cons, decide_eq_false hpk, Bool.false_or] at hc
          exact hc
        have hget' : dictGet dflt d k = v := by
          simp only [dictGet, if_neg hpk] at hget
          exact hget
        exact List.mem_cons_of_mem _ ((mem_dict_iff dflt k v d hnd').mpr ⟨hc', hget'⟩)

theorem tech_nodup : tech_terms.Nodup := by decide

theorem action_nodup : action_terms.Nodup := by decide

theorem scanTerms_get (text : Str) :
    ∀ (terms : List Str), terms.Nodup → ∀ (sk : List (Str × Nat)) (t : Str),
      dictGet 0 (scanTerms terms text sk) t =
        dictGet 0 sk t + (if t ∈ terms ∧ isSubstrB t text = true then 1 else 0)
  | [], _, sk, t => by simp [scanTerms]
  | tm :: terms, hnd, sk, t => by
    have hnd' : terms.Nodup := (List.nodup_cons.mp hnd).2
    simp only [scanTerms]
    by_cases hsub : isSubstrB tm text = true
    · rw [if_pos hsub, scanTerms_get text terms hnd' _ t]
      unfold bumpSkill
      rw [dictGet_dictUpd]
      by_cases htm : t = tm
      · subst htm
        have hnotin : t ∉ terms := (List.nodup_cons.mp hnd).1
        simp [hnotin, hsub]
      · by_cases hin : t ∈ terms <;> simp [htm, hin]
    · rw [if_neg hsub, scanTerms_get text terms hnd' sk t]
      by_cases htm : t = tm
      · subst htm
        simp [hsub]
      · simp [htm]

theorem scanTerms_contains (text : Str) :
    ∀ (terms : List Str) (sk : List (Str × Nat)) (t : Str),
      containsKey (scanTerms terms text sk) t = true ↔
        (containsKey sk t = true ∨ (t ∈ terms ∧ isSubstrB t text = true))
  | [], sk, t => by simp [scanTerms]
  | tm :: terms, sk, t => by
    simp only [scanTerms]
    by_cases hsub : isSubstrB tm text = true
    · rw [if_pos hsub, scanTerms_contains text terms _ t]
      unfold bumpSkill
      rw [containsKey_dictUpd]
      by_cases htm : t = tm
      · subst htm
        simp [hsub]
      · simp [htm]
    · rw [if_neg hsub, scanTerms_contains text terms sk t]
      by_cases htm : t = tm
      · subst htm
        simp [hsub]
      · simp [htm]

theorem scanTerms_pos {P : Str × Nat → Prop} (text : Str)
    (hP : ∀ p, P p → ∀ t, P (t, p.2 + 1)) (hone : ∀ t, P (t, 1)) :
    ∀ (terms : List Str) (sk : List (Str × Nat)), (∀ p ∈ sk, P p) →
      ∀ p ∈ scanTerms terms text sk, P p
  | [], sk, hsk => by simpa [scanTerms] using hsk
  | tm :: terms, sk, hsk => by
    simp only [scanTerms]
    refine scanTerms_pos text hP hone terms _ ?_
    by_cases hsub : isSubstrB tm text = true
    · rw [if_pos hsub]
      unfold bumpSkill
      refine dictUpd_forall 0 _ tm ?_ ?_ sk hsk
      · exact hone tm
      · intro v hv
        exact hP (tm, v) hv tm
    · rw [if_neg hsub]; exact hsk

theorem commitSkills_get (c : Commit) (sk : List (Str × Nat)) (t : Str) :
    dictGet 0 (commitSkills sk c) t =
      dictGet 0 sk t +
        (if t ∈ tech_terms ∧ isSubstrB t (lowerStr c.message) = true then 1 else 0) +
        (if t ∈ action_terms ∧ isSubstrB t (lowerStr c.message) = true then 1 else 0) := by
  unfold commitSkills
  rw [scanTerms_get _ action_terms action_nodup _ t,
    scanTerms_get _ tech_terms tech_nodup _ t]

theorem ticketSkills_get (tk : Ticket) (sk : List (Str × Nat)) (t : Str) :
    dictGet 0 (ticketSkills sk tk) t =
      dictGet 0 sk t +
        (if t ∈ tech_terms ∧ isSubstrB t (lowerStr tk.summary) = true then 1 else 0) := by
  unfold ticketSkills
  rw [scanTerms_get _ tech_terms tech_nodup _ t]

theorem commitsFold_get (t : Str) :
    ∀ (cs : List Commit) (sk : List (Str × Nat)),
      dictGet 0 (cs.foldl commitSkills sk) t =
        dictGet 0 sk t +
          (if t ∈ tech_terms then
            cs.countP (fun c => isSubstrB t (lowerStr c.message)) else 0) +
          (if t ∈ action_terms then
            cs.countP (fun c => isSubstrB t (lowerStr c.message)) else 0)
  | [], sk => by simp
  | c :: cs, sk => by
    simp only [List.foldl_cons]
    rw [commitsFold_get t cs (commitSkills sk c), commitSkills_get,
      List.countP_cons]
    by_cases h1 : t ∈ tech_terms <;> by_cases h2 : t ∈ action_terms <;>
      by_cases h3 : isSubstrB t (lowerStr c.message) = true <;>
        simp [h1, h2, h3] <;> omega

theorem ticketsFold_get (t : Str) :
    ∀ (tks : List Ticket) (sk : List (Str × Nat)),
      dictGet 0 (tks.foldl ticketSkills sk) t =
        dictGet 0 sk t +
          (if t ∈ tech_terms then
            tks.countP (fun tk => isSubstrB t (lowerStr tk.summary)) else 0)
  | [], sk => by simp
  | tk :: tks, sk => by
    simp only [List.foldl_cons]
    rw [ticketsFold_get t tks (ticketSkills sk tk), ticketSkills_get,
      List.countP_cons]
    by_cases h1 : t ∈ tech_terms <;>
      by_cases h3 : isSubstrB t (lowerStr tk.summary) = true <;>
        simp [h1, h3] <;> omega

theorem extractSkillsCluster_get (ed : EmployeeCluster) (t : Str) :
    dictGet 0 (extractSkillsCluster ed) t = skillCountSpec ed t := by
  unfold extractSkillsCluster skillCountSpec
  rw [ticketsFold_get, commitsFold_get]
  simp only [dictGet]
  by_cases h1 : t ∈ tech_terms <;> by_cases h2 : t ∈ action_terms <;>
    simp [h1, h2] <;> omega

theorem skillValues_pos (ed : EmployeeCluster) :
    ∀ p ∈ extractSkillsCluster ed, p.2 ≥ 1 := by
  unfold extractSkillsCluster
  have hbase : ∀ p ∈ (ed.git_commits.foldl commitSkills []), p.2 ≥ (1 : Nat) := by
    refine foldl_pres commitSkills (fun sk => ∀ p ∈ sk, p.2 ≥ 1) _ ?_ [] (by simp)
    intro c _ sk hsk
    unfold commitSkills
    refine scanTerms_pos _ ?_ ?_ _ _ (scanTerms_pos _ ?_ ?_ _ _ hsk) <;>
      first
        | (intro p hp t; omega)
        | (intro t; omega)
  refine foldl_pres ticketSkills (fun sk => ∀ p ∈ sk, p.2 ≥ 1) _ ?_ _ hbase
  intro tk _ sk hsk
  unfold ticketSkills
  refine scanTerms_pos _ ?_ ?_ _ _ hsk <;>
    first
      | (intro p hp t; omega)
      | (intro t; omega)

theorem scanTerms_nodupKeys (text : Str) :
    ∀ (terms : List Str) (sk : List (Str × Nat)),
      (sk.map Prod.fst).Nodup → ((scanTerms terms text sk).map Prod.fst).Nodup
  | [], sk, h => by simpa [scanTerms] using h
  | tm :: terms, sk, h => by
    simp only [scanTerms]
    refine scanTerms_nodupKeys text terms _ ?_
    by_cases hsub : isSubstrB tm text = true
    · rw [if_pos hsub]
      exact nodupKeys_dictUpd 0 _ tm sk h
    · rw [if_neg hsub]; exact h

theorem extractSkillsCluster_nodupKeys (ed : EmployeeCluster) :
    ((extractSkillsCluster ed).map Prod.fst).Nodup := by
  unfold extractSkillsCluster
  have hbase : ((ed.git_commits.foldl commitSkills []).map Prod.fst).Nodup := by
    refine foldl_pres commitSkills (fun sk => (sk.map Prod.fst).Nodup) _ ?_ [] (by simp)
    intro c _ sk hsk
    unfold commitSkills
    exact scanTerms_nodupKeys _ _ _ (scanTerms_nodupKeys _ _ _ hsk)
  refine foldl_pres ticketSkills (fun sk => (sk.map Prod.fst).Nodup) _ ?_ _ hbase
  intro tk _ sk hsk
  unfold ticketSkills
  exact scanTerms_nodupKeys _ _ _ hsk

/-- Claim C2 counterexample: for an employee whose single commit message is
`fix fix` and whose single assigned-ticket summary is `deploy now`, the
extracted skills are exactly `[(fix, 1)]`: the double occurrence of `fix`
in one message contributes one, not two, and the action term `deploy` in
the ticket summary is not counted at all. -/
theorem C2_counterexample :
    dictGet [] (extract_skills_from_activity [edSkills]) edSkills.employee
        = [(("fix").toList, 1)] ∧
    (("fix").toList, 2) ∉
      dictGet [] (extract_skills_from_activity [edSkills]) edSkills.employee ∧
    (("deploy").toList, 1) ∉
      dictGet [] (extract_skills_from_activity [edSkills]) edSkills.employee := by
  decide

/-- Claim C2 (amended): for every employee cluster, the skill list emitted by
`extract_skills_from_activity` contains the pair `(term, n)` exactly when
`n` is nonzero and equals the number of commit messages whose lower-cased
text contains the term as a substring (counted for both vocabularies) plus,
for technology terms only, the number of ticket summaries (assigned and
resolved) whose lower-cased text contains it; each containing message or
summary contributes one regardless of how many occurrences it holds, and
action terms are never counted in ticket summaries. -/
theorem C2_skill_counts (ed : EmployeeCluster) (t : Str) (n : Nat) :
    (t, n) ∈ dictGet [] (extract_skills_from_activity [ed]) ed.employee ↔
      (n = skillCountSpec ed t ∧ n ≠ 0) := by
  have hx : dictGet [] (extract_skills_from_activity [ed]) ed.employee =
      sortDesc Prod.snd (extractSkillsCluster ed) := by
    simp [extract_skills_from_activity, dictUpd, dictGet]
  rw [hx, (sortDesc_perm Prod.snd (extractSkillsCluster ed)).mem_iff,
    mem_dict_iff 0 t n (extractSkillsCluster ed) (extractSkillsCluster_nodupKeys ed)]
  constructor
  · rintro ⟨hc, hget⟩
    have hmem := mem_of_contains 0 (extractSkillsCluster ed) t hc
    have hpos := skillValues_pos ed _ hmem
    rw [extractSkillsCluster_get] at hget
    refine ⟨hget.symm, ?_⟩
    rw [extractSkillsCluster_get] at hpos
    omega
  · rintro ⟨hn, hne⟩
    have hget : dictGet 0 (extractSkillsCluster ed) t = n := by
      rw [extractSkillsCluster_get]; exact hn.symm
    refine ⟨?_, hget⟩
    by_contra hc
    have : dictGet 0 (extractSkillsCluster ed) t = 0 :=
      dictGet_of_not_contains 0 _ t (by simpa using hc)
    rw [this] at hget
    exact hne hget.symm

/-! Claim C7: employee cluster ordering and additive activity counts. -/

theorem empFinalList_total (jira : List Ticket) (git : List Commit) (emails : List Email) :
    ∀ c ∈ empFinalList jira git emails,
      c.activity_summary.total_activity_count =
        c.activity_summary.jira_tickets_assigned +
        c.activity_summary.jira_tickets_resolved +
        c.activity_summary.git_commits +
        c.activity_summary.emails_sent +
        c.activity_summary.emails_received := by
  intro c hc
  rcases List.mem_filterMap.mp hc with ⟨q, hq, hmk⟩
  by_cases he : isEmptyEmpAcc q.2
  · rw [if_pos he] at hmk; cases hmk
  · rw [if_neg he] at hmk
    have hc' := Option.some.inj hmk
    rw [← hc']
    simp only [mkEmployeeCluster]
    omega

/-- Claim C7: the output of `cluster_employee_data` is sorted descending by
`total_activity_count`, every cluster's `total_activity_count` equals the
sum of its five per-category counts, and clusters with equal totals keep
their encounter order (elements of any fixed total appear in the same
order as in the pre-sort `final_clusters` list). -/
theorem C7_employee_ordering (jira : List Ticket) (git : List Commit) (emails : List Email) :
    (cluster_employee_data jira git emails).Pairwise
      (fun a b => b.activity_summary.total_activity_count ≤
        a.activity_summary.total_activity_count) ∧
    (∀ c ∈ cluster_employee_data jira git emails,
      c.activity_summary.total_activity_count =
        c.activity_summary.jira_tickets_assigned +
        c.activity_summary.jira_tickets_resolved +
        c.activity_summary.git_commits +
        c.activity_summary.emails_sent +
        c.activity_summary.emails_received) ∧
    (∀ v, (cluster_employee_data jira git emails).filter
        (fun c => c.activity_summary.total_activity_count == v) =
      (empFinalList jira git emails).filter
        (fun c => c.activity_summary.total_activity_count == v)) := by
  refine ⟨sortDesc_pairwise _ _, ?_, fun v => sortDesc_filter _ v _⟩
  intro c hc
  unfold cluster_employee_data at hc
  have hc' : c ∈ empFinalList jira git emails :=
    (sortDesc_perm (fun c => c.activity_summary.total_activity_count)
      (empFinalList jira git emails)).mem_iff.mp hc
  exact empFinalList_total jira git emails c hc'

/-- Claim C7 witness: on a concrete input the theorem's additivity holds at
the most active cluster of the computed output. -/
theorem C7_witness :
    ((cluster_employee_data [wTicket] [wCommit] [wEmailD, wEmailF]).headD
        defEmployeeCluster).activity_summary.total_activity_count =
      ((cluster_employee_data [wTicket] [wCommit] [wEmailD, wEmailF]).headD
        defEmployeeCluster).activity_summary.jira_tickets_assigned +
      ((cluster_employee_data [wTicket] [wCommit] [wEmailD, wEmailF]).headD
        defEmployeeCluster).activity_summary.jira_tickets_resolved +
      ((cluster_employee_data [wTicket] [wCommit] [wEmailD, wEmailF]).headD
        defEmployeeCluster).activity_summary.git_commits +
      ((cluster_employee_data [wTicket] [wCommit] [wEmailD, wEmailF]).headD
        defEmployeeCluster).activity_summary.emails_sent +
      ((cluster_employee_data [wTicket] [wCommit] [wEmailD, wEmailF]).headD
        defEmployeeCluster).activity_summary.emails_received := by
  refine (C7_employee_ordering [wTicket] [wCommit] [wEmailD, wEmailF]).2.1 _ ?_
  decide

/-! Claim C9: chronological, stable timeline ordering in both correlators. -/

/-- Claim C9: in every cluster produced by `cluster_task_data` or
`cluster_employee_data`, consecutive timeline events have non-decreasing
timestamps, and the timeline is the stable ascending sort of the cluster's
pre-sort attachment timeline: events of any fixed timestamp appear in their
original attachment order. -/
theorem C9_timeline_order (jira : List Ticket) (git : List Commit) (emails : List Email) :
    (∀ c ∈ cluster_task_data jira git emails,
      c.timeline.Pairwise (fun a b => a.timestamp ≤ b.timestamp) ∧
      ∃ acc, (c.task_id, acc) ∈ buildTaskMap jira git emails ∧
        c.timeline = sortAsc (fun ev => ev.timestamp) acc.timeline ∧
        ∀ v, c.timeline.filter (fun ev => ev.timestamp == v) =
          acc.timeline.filter (fun ev => ev.timestamp == v)) ∧
    (∀ c ∈ cluster_employee_data jira git emails,
      c.timeline.Pairwise (fun a b => a.timestamp ≤ b.timestamp) ∧
      ∃ acc, (c.employee, acc) ∈ buildEmpMap jira git emails ∧
        c.timeline = sortAsc (fun ev => ev.timestamp) acc.timeline ∧
        ∀ v, c.timeline.filter (fun ev => ev.timestamp == v) =
          acc.timeline.filter (fun ev => ev.timestamp == v)) := by
  constructor
  · intro c hc
    rcases List.mem_filterMap.mp hc with ⟨q, hq, hmk⟩
    rcases List.mem_map.mp hq with ⟨p, hp, rfl⟩
    cases hj : (sortTaskAcc p.2).jira with
    | none => simp [mkTaskCluster, hj] at hmk
    | some t =>
      simp only [mkTaskCluster, hj] at hmk
      have hc2 := Option.some.inj hmk
      have htl : c.timeline = sortAsc (fun ev => ev.timestamp) p.2.timeline := by
        rw [← hc2]
        rfl
      have hid : c.task_id = p.1 := by rw [← hc2]
      refine ⟨?_, p.2, ?_, htl, ?_⟩
      · rw [htl]; exact sortAsc_pairwise _ _
      · rw [hid]; exact hp
      · intro v
        rw [htl]
        exact sortAsc_filter _ v _
  · intro c hc
    unfold cluster_employee_data at hc
    have hc' : c ∈ empFinalList jira git emails :=
      (sortDesc_perm (fun c => c.activity_summary.total_activity_count)
        (empFinalList jira git emails)).mem_iff.mp hc
    rcases List.mem_filterMap.mp hc' with ⟨q, hq, hmk⟩
    rcases List.mem_map.mp hq with ⟨p, hp, rfl⟩
    by_cases he : isEmptyEmpAcc (sortEmpAcc p.2)
    · rw [if_pos he] at hmk; cases hmk
    · rw [if_neg he] at hmk
      have hc2 := Option.some.inj hmk
      have htl : c.timeline = sortAsc (fun ev => ev.timestamp) p.2.timeline := by
        rw [← hc2]
        rfl
      have hid : c.employee = p.1 := by
        rw [← hc2]
        rfl
      refine ⟨?_, p.2, ?_, htl, ?_⟩
      · rw [htl]; exact sortAsc_pairwise _ _
      · rw [hid]; exact hp
      · intro v
        rw [htl]
        exact sortAsc_filter _ v _

/-- Claim C9 witness: both parts of the ordering theorem, instantiated at a
computed cluster of a concrete input. -/
theorem C9_witness :
    (((cluster_task_data [wTicket] [wCommit] [wEmailD, wEmailF]).headD
        defTaskCluster).timeline.Pairwise (fun a b => a.timestamp ≤ b.timestamp) ∧
      ∃ acc, (((cluster_task_data [wTicket] [wCommit] [wEmailD, wEmailF]).headD
          defTaskCluster).task_id, acc) ∈ buildTaskMap [wTicket] [wCommit] [wEmailD, wEmailF] ∧
        ((cluster_task_data [wTicket] [wCommit] [wEmailD, wEmailF]).headD
          defTaskCluster).timeline = sortAsc (fun ev => ev.timestamp) acc.timeline ∧
        ∀ v, ((cluster_task_data [wTicket] [wCommit] [wEmailD, wEmailF]).headD
            defTaskCluster).timeline.filter (fun ev => ev.timestamp == v) =
          acc.timeline.filter (fun ev => ev.timestamp == v)) ∧
    (((cluster_employee_data [wTicket] [wCommit] [wEmailD, wEmailF]).headD
        defEmployeeCluster).timeline.Pairwise (fun a b => a.timestamp ≤ b.timestamp) ∧
      ∃ acc, (((cluster_employee_data [wTicket] [wCommit] [wEmailD, wEmailF]).headD
          defEmployeeCluster).employee, acc) ∈
            buildEmpMap [wTicket] [wCommit] [wEmailD, wEmailF] ∧
        ((cluster_employee_data [wTicket] [wCommit] [wEmailD, wEmailF]).headD
          defEmployeeCluster).timeline = sortAsc (fun ev => ev.timestamp) acc.timeline ∧
        ∀ v, ((cluster_employee_data [wTicket] [wCommit] [wEmailD, wEmailF]).headD
            defEmployeeCluster).timeline.filter (fun ev => ev.timestamp == v) =
          acc.timeline.filter (fun ev => ev.timestamp == v)) := by
  refine ⟨(C9_timeline_order [wTicket] [wCommit] [wEmailD, wEmailF]).1 _ ?_,
    (C9_timeline_order [wTicket] [wCommit] [wEmailD, wEmailF]).2 _ ?_⟩ <;> decide

/-! Entry invariants of the task map, shared by the remaining task claims. -/

theorem processEmail_forall {P : Str × TaskAcc → Prop} (e' : Email) (m : TCMap)
    (h1 : ∀ p ∈ m, P p)
    (hattD : taskIdsOf e' ≠ [] → ∀ k v, P (k, v) → P (k, attachEmailTask e' v))
    (hattF : taskIdsOf e' = [] → ∀ k v, P (k, v) → e' ∉ v.emails →
      P (k, attachEmailTask e' v)) :
    ∀ p ∈ processEmail m e', P p := by
  unfold processEmail
  by_cases ht : taskIdsOf e' = []
  · rw [if_pos ht]
    have hd : processEmailDirect m e' = m := by
      unfold processEmailDirect
      rw [ht]
      rfl
    rw [hd]
    refine foldl_pres (fallbackStep e') (fun m => ∀ p ∈ m, P p) _ ?_ m h1
    intro cid _ m hm
    unfold fallbackStep
    intro p hp
    rcases List.mem_map.mp hp with ⟨q, hq, rfl⟩
    by_cases hmatch : q.2.git_commits.any (fun c => decide (c.commit_id = cid)) = true
    · rw [if_pos hmatch]
      by_cases hin : e' ∈ q.2.emails
      · rw [if_pos hin]; exact hm q hq
      · rw [if_neg hin]
        exact hattF ht q.1 q.2 (hm q hq) hin
    · rw [if_neg hmatch]
      exact hm q hq
  · rw [if_neg ht]
    unfold processEmailDirect
    refine foldl_pres (directStep e') (fun m => ∀ p ∈ m, P p) _ ?_ m h1
    intro tid _ m hm
    unfold directStep
    by_cases hc : containsKey m tid
    · rw [if_pos hc]
      exact updExisting_forall _ tid (fun v hv => hattD ht tid v hv) m hm
    · rw [if_neg hc]; exact hm

theorem keys_fallbackStep (e : Email) (m : TCMap) (cid : Str) :
    (fallbackStep e m cid).map Prod.fst = m.map Prod.fst := by
  unfold fallbackStep
  rw [List.map_map]
  refine List.map_congr_left ?_
  intro p _
  by_cases hmatch : p.2.git_commits.any (fun c => decide (c.commit_id = cid)) = true
  · rw [Function.comp_apply, if_pos hmatch]
    by_cases hin : e ∈ p.2.emails
    · rw [if_pos hin]
    · rw [if_neg hin]
  · rw [Function.comp_apply, if_neg hmatch]

theorem keys_directStep (e : Email) (m : TCMap) (tid : Str) :
    (directStep e m tid).map Prod.fst = m.map Prod.fst := by
  unfold directStep
  by_cases hc : containsKey m tid
  · rw [if_pos hc, keys_updExisting]
  · rw [if_neg hc]

theorem keys_foldl {α : Type} (f : TCMap → α → TCMap)
    (hf : ∀ m a, (f m a).map Prod.fst = m.map Prod.fst) :
    ∀ (l : List α) (m : TCMap), (l.foldl f m).map Prod.fst = m.map Prod.fst
  | [], m => rfl
  | a :: l, m => by
    rw [List.foldl_cons, keys_foldl f hf l (f m a), hf]

theorem keys_processEmail (m : TCMap) (e : Email) :
    (processEmail m e).map Prod.fst = m.map Prod.fst := by
  unfold processEmail
  have hdir : (processEmailDirect m e).map Prod.fst = m.map Prod.fst := by
    unfold processEmailDirect
    exact keys_foldl (directStep e) (fun m a => keys_directStep e m a) _ m
  by_cases ht : taskIdsOf e = []
  · rw [if_pos ht,
      keys_foldl (fallbackStep e) (fun m a => keys_fallbackStep e m a) _ _, hdir]
  · rw [if_neg ht, hdir]

theorem nodupKeys_buildTaskMap (jira : List Ticket) (git : List Commit)
    (emails : List Email) : ((buildTaskMap jira git emails).map Prod.fst).Nodup := by
  unfold buildTaskMap
  refine foldl_pres processEmail (fun m => (m.map Prod.fst).Nodup) _ ?_ _ ?_
  · intro e _ m hm
    rw [keys_processEmail]
    exact hm
  · refine foldl_pres processCommit (fun m => (m.map Prod.fst).Nodup) _ ?_ _ ?_
    · intro c _ m hm
      cases hct : c.ticket with
      | none =>
        simp only [processCommit, hct]
        exact hm
      | some tid =>
        simp only [processCommit, hct]
        by_cases htid : tid = []
        · rw [if_pos htid]; exact hm
        · rw [if_neg htid]
          exact nodupKeys_dictUpd _ _ _ m hm
    · refine foldl_pres processTicket (fun m => (m.map Prod.fst).Nodup) _ ?_ [] (by simp)
      intro t _ m hm
      unfold processTicket
      exact nodupKeys_dictUpd _ _ _ m hm

/-! Claim C4: every output cluster key is a ticket identifier. -/

theorem ticketFold_jira_src (J : List Ticket) :
    ∀ (ts : List Ticket), (∀ x ∈ ts, x ∈ J) → ∀ (m : TCMap),
      (∀ p ∈ m, ∀ t, p.2.jira = some t → t ∈ J ∧ t.id = p.1) →
      ∀ p ∈ ts.foldl processTicket m, ∀ t, p.2.jira = some t → t ∈ J ∧ t.id = p.1
  | [], _, _, hm => hm
  | tk :: ts, hts, m, hm => by
    rw [List.foldl_cons]
    refine ticketFold_jira_src J ts (fun x hx => hts x (List.mem_cons_of_mem _ hx))
      (processTicket m tk) ?_
    unfold processTicket
    refine dictUpd_forall _ _ _ ?_ ?_ m hm
    · intro t ht
      have ht' : some tk = some t := ht
      injection ht' with h
      exact ⟨h ▸ hts tk (by simp), h ▸ rfl⟩
    · intro v _ t ht
      have ht' : some tk = some t := ht
      injection ht' with h
      exact ⟨h ▸ hts tk (by simp), h ▸ rfl⟩

theorem buildTaskMap_jira_src (jira : List Ticket) (git : List Commit)
    (emails : List Email) :
    ∀ p ∈ buildTaskMap jira git emails, ∀ t, p.2.jira = some t → t ∈ jira ∧ t.id = p.1 := by
  unfold buildTaskMap
  refine foldl_pres processEmail
    (fun m => ∀ p ∈ m, ∀ t, p.2.jira = some t → t ∈ jira ∧ t.id = p.1) _ ?_ _ ?_
  · intro e _ m hm
    refine processEmail_forall e m hm ?_ ?_
    · intro _ k v hv t ht
      exact hv t ht
    · intro _ k v hv _ t ht
      exact hv t ht
  · refine foldl_pres processCommit
      (fun m => ∀ p ∈ m, ∀ t, p.2.jira = some t → t ∈ jira ∧ t.id = p.1) _ ?_ _ ?_
    · intro c _ m hm
      cases hct : c.ticket with
      | none =>
        simp only [processCommit, hct]
        exact hm
      | some tid =>
        simp only [processCommit, hct]
        by_cases htid : tid = []
        · rw [if_pos htid]; exact hm
        · rw [if_neg htid]
          refine dictUpd_forall _ _ _ ?_ ?_ m hm
          · intro t ht
            have ht' : (none : Option Ticket) = some t := ht
            cases ht'
          · intro v hv t ht
            exact hv t ht
    · exact ticketFold_jira_src jira jira (fun x hx => hx) [] (by simp)

/-- Claim C4: every cluster returned by `cluster_task_data` has a key equal
to some input ticket's identifier; a commit whose ticket reference matches
no ticket seeds only a key-entry without a JIRA ticket, which is discarded,
so no fabricated or placeholder cluster ever reaches the output. -/
theorem C4_cluster_keys (jira : List Ticket) (git : List Commit) (emails : List Email) :
    ∀ c ∈ cluster_task_data jira git emails, ∃ t ∈ jira, t.id = c.task_id := by
  intro c hc
  rcases List.mem_filterMap.mp hc with ⟨q, hq, hmk⟩
  rcases List.mem_map.mp hq with ⟨p, hp, rfl⟩
  cases hj : (sortTaskAcc p.2).jira with
  | none => simp [mkTaskCluster, hj] at hmk
  | some t =>
    simp only [mkTaskCluster, hj] at hmk
    have hc2 := Option.some.inj hmk
    have hid : c.task_id = p.1 := by rw [← hc2]
    have hj' : p.2.jira = some t := hj
    have := buildTaskMap_jira_src jira git emails p hp t hj'
    exact ⟨t, this.1, by rw [hid]; exact this.2⟩

/-- Claim C4 witness: the theorem applied at a concrete input whose commit
carries a dangling reference is still keyed by the one real ticket. -/
theorem C4_witness :
    ∃ t ∈ [wTicket],
      t.id = ((cluster_task_data [wTicket] [wCommit, cNoRef] [wEmailD]).headD
        defTaskCluster).task_id :=
  C4_cluster_keys [wTicket] [wCommit, cNoRef] [wEmailD] _ (by decide)

/-! Claim C6: fallback short-circuit and per-cluster deduplication. -/

theorem buildTaskMap_email_count (e : Email) (he : taskIdsOf e = [])
    (jira : List Ticket) (git : List Commit) (emails : List Email) :
    ∀ p ∈ buildTaskMap jira git emails, p.2.emails.count e ≤ 1 := by
  unfold buildTaskMap
  refine foldl_pres processEmail (fun m => ∀ p ∈ m, p.2.emails.count e ≤ 1) _ ?_ _ ?_
  · intro e' _ m hm
    refine processEmail_forall e' m hm ?_ ?_
    · intro ht k v hv
      have hne : e' ≠ e := by
        intro hh
        rw [hh, he] at ht
        exact ht rfl
      show List.count e (v.emails ++ [e']) ≤ 1
      rw [List.count_append, List.count_singleton]
      simp only [beq_iff_eq, hne, if_false]
      simpa using hv
    · intro ht k v hv hin
      show List.count e (v.emails ++ [e']) ≤ 1
      by_cases hee : e' = e
      · subst hee
        have hz : List.count e' v.emails = 0 := List.count_eq_zero.mpr hin
        rw [List.count_append, hz, List.count_singleton]
        simp
      · rw [List.count_append, List.count_singleton]
        simp only [beq_iff_eq, hee, if_false]
        simpa using hv
  · refine foldl_pres processCommit (fun m => ∀ p ∈ m, p.2.emails.count e ≤ 1) _ ?_ _ ?_
    · intro c _ m hm
      cases hct : c.ticket with
      | none =>
        simp only [processCommit, hct]
        exact hm
      | some tid =>
        simp only [processCommit, hct]
        by_cases htid : tid = []
        · rw [if_pos htid]; exact hm
        · rw [if_neg htid]
          refine dictUpd_forall _ _ _ ?_ ?_ m hm
          · show List.count e ([] : List Email) ≤ 1
            simp
          · intro v hv
            exact hv
    · refine foldl_pres processTicket (fun m => ∀ p ∈ m, p.2.emails.count e ≤ 1) _ ?_ []
        (by simp)
      intro t _ m hm
      unfold processTicket
      refine dictUpd_forall _ _ _ ?_ ?_ m hm
      · show List.count e ([] : List Email) ≤ 1
        simp
      · intro v hv
        exact hv

/-- Claim C6: an email whose subject-plus-body text contains at least one
`PROJ-<digits>` token never triggers the UUID fallback — its effect on every
cluster is exactly the direct attachment, even when no token matches an
existing cluster and the body holds a matching UUID; and an email with no
such token, attached through the fallback, occurs at most once in any
output cluster's email list. -/
theorem C6_fallback_behavior :
    (∀ (m : TCMap) (e : Email), taskIdsOf e ≠ [] → ∀ k : Str,
      dictFind (processEmail m e) k =
        (dictFind m k).map (fun v => if k ∈ taskIdsOf e then attachEmailTask e v else v)) ∧
    (∀ (jira : List Ticket) (git : List Commit) (emails : List Email) (e : Email),
      taskIdsOf e = [] → ∀ c ∈ cluster_task_data jira git emails,
        c.emails.count e ≤ 1) := by
  constructor
  · intro m e he k
    unfold processEmail
    rw [if_neg he]
    exact dictFind_processEmailDirect m e k
  · intro jira git emails e he c hc
    rcases List.mem_filterMap.mp hc with ⟨q, hq, hmk⟩
    rcases List.mem_map.mp hq with ⟨p, hp, rfl⟩
    cases hj : (sortTaskAcc p.2).jira with
    | none => simp [mkTaskCluster, hj] at hmk
    | some t =>
      simp only [mkTaskCluster, hj] at hmk
      have hc2 := Option.some.inj hmk
      have hem : c.emails = p.2.emails := by
        rw [← hc2]
        rfl
      rw [hem]
      exact buildTaskMap_email_count e he jira git emails p hp

/-- Claim C6 witness: the direct-only equation at an email with a task
token, and an at-most-once fallback attachment for a duplicated email whose
body holds the commit UUID. -/
theorem C6_witness :
    (dictFind (processEmail [(("PROJ-1").toList, emptyTaskAcc)] wEmailD)
        (("PROJ-1").toList) =
      (dictFind [(("PROJ-1").toList, emptyTaskAcc)] (("PROJ-1").toList)).map
        (fun v => if ("PROJ-1").toList ∈ taskIdsOf wEmailD
          then attachEmailTask wEmailD v else v)) ∧
    (((cluster_task_data [wTicket] [wCommit] [wEmailF, wEmailF]).headD
        defTaskCluster).emails.count wEmailF ≤ 1) :=
  ⟨C6_fallback_behavior.1 _ wEmailD (by decide) _,
    C6_fallback_behavior.2 [wTicket] [wCommit] [wEmailF, wEmailF] wEmailF (by decide) _
      (by decide)⟩

/-! Claim C5: commits land in exactly one cluster. -/

theorem dictGetProj_foldl {α β γ : Type} (π : β → γ) (dflt : β) (k : Str)
    (f : List (Str × β) → α → List (Str × β))
    (hf : ∀ m a, π (dictGet dflt (f m a) k) = π (dictGet dflt m k)) :
    ∀ (l : List α) (m : List (Str × β)),
      π (dictGet dflt (l.foldl f m) k) = π (dictGet dflt m k)
  | [], _ => rfl
  | a :: l, m => by
    rw [List.foldl_cons, dictGetProj_foldl π dflt k f hf l (f m a), hf]

theorem commitsProj_directStep (e : Email) (m : TCMap) (t k : Str) :
    (dictGet emptyTaskAcc (directStep e m t) k).git_commits =
      (dictGet emptyTaskAcc m k).git_commits := by
  unfold directStep
  by_cases hc : containsKey m t
  · rw [if_pos hc]
    exact dictGet_proj TaskAcc.git_commits emptyTaskAcc _ t k m (fun v => rfl)
  · rw [if_neg hc]

theorem commitsProj_fallbackStep (e : Email) (m : TCMap) (cid : Str) (k : Str) :
    (dictGet emptyTaskAcc (fallbackStep e m cid) k).git_commits =
      (dictGet emptyTaskAcc m k).git_commits := by
  unfold fallbackStep
  refine dictGet_map_proj TaskAcc.git_commits emptyTaskAcc _ k m ?_ ?_
  · intro p
    by_cases hmatch : p.2.git_commits.any (fun c => decide (c.commit_id = cid)) = true
    · rw [if_pos hmatch]
      by_cases hin : e ∈ p.2.emails
      · rw [if_pos hin]
      · rw [if_neg hin]
    · rw [if_neg hmatch]
  · intro p
    by_cases hmatch : p.2.git_commits.any (fun c => decide (c.commit_id = cid)) = true
    · rw [if_pos hmatch]
      by_cases hin : e ∈ p.2.emails
      · rw [if_pos hin]
      · rw [if_neg hin]
        rfl
    · rw [if_neg hmatch]

theorem commitsProj_processEmail (m : TCMap) (e : Email) (k : Str) :
    (dictGet emptyTaskAcc (processEmail m e) k).git_commits =
      (dictGet emptyTaskAcc m k).git_commits := by
  unfold processEmail
  have hdir : (dictGet emptyTaskAcc (processEmailDirect m e) k).git_commits =
      (dictGet emptyTaskAcc m k).git_commits := by
    unfold processEmailDirect
    exact dictGetProj_foldl TaskAcc.git_commits emptyTaskAcc k (directStep e)
      (fun m t => commitsProj_directStep e m t k) _ m
  by_cases ht : taskIdsOf e = []
  · rw [if_pos ht,
      dictGetProj_foldl TaskAcc.git_commits emptyTaskAcc k (fallbackStep e)
        (fun m cid => commitsProj_fallbackStep e m cid k) _ _, hdir]
  · rw [if_neg ht, hdir]

theorem jiraProj_directStep (e : Email) (m : TCMap) (t k : Str) :
    (dictGet emptyTaskAcc (directStep e m t) k).jira =
      (dictGet emptyTaskAcc m k).jira := by
  unfold directStep
  by_cases hc : containsKey m t
  · rw [if_pos hc]
    exact dictGet_proj TaskAcc.jira emptyTaskAcc _ t k m (fun v => rfl)
  · rw [if_neg hc]

theorem jiraProj_fallbackStep (e : Email) (m : TCMap) (cid : Str) (k : Str) :
    (dictGet emptyTaskAcc (fallbackStep e m cid) k).jira =
      (dictGet emptyTaskAcc m k).jira := by
  unfold fallbackStep
  refine dictGet_map_proj TaskAcc.jira emptyTaskAcc _ k m ?_ ?_
  · intro p
    by_cases hmatch : p.2.git_commits.any (fun c => decide (c.commit_id = cid)) = true
    · rw [if_pos hmatch]
      by_cases hin : e ∈ p.2.emails
      · rw [if_pos hin]
      · rw [if_neg hin]
    · rw [if_neg hmatch]
  · intro p
    by_cases hmatch : p.2.git_commits.any (fun c => decide (c.commit_id = cid)) = true
    · rw [if_pos hmatch]
      by_cases hin : e ∈ p.2.emails
      · rw [if_pos hin]
      · rw [if_neg hin]
        rfl
    · rw [if_neg hmatch]

theorem jiraProj_processEmail (m : TCMap) (e : Email) (k : Str) :
    (dictGet emptyTaskAcc (processEmail m e) k).jira =
      (dictGet emptyTaskAcc m k).jira := by
  unfold processEmail
  have hdir : (dictGet emptyTaskAcc (processEmailDirect m e) k).jira =
      (dictGet emptyTaskAcc m k).jira := by
    unfold processEmailDirect
    exact dictGetProj_foldl TaskAcc.jira emptyTaskAcc k (directStep e)
      (fun m t => jiraProj_directStep e m t k) _ m
  by_cases ht : taskIdsOf e = []
  · rw [if_pos ht,
      dictGetProj_foldl TaskAcc.jira emptyTaskAcc k (fallbackStep e)
        (fun m cid => jiraProj_fallbackStep e m cid k) _ _, hdir]
  · rw [if_neg ht, hdir]

theorem jiraProj_processCommit (m : TCMap) (c : Commit) (k : Str) :
    (dictGet emptyTaskAcc (processCommit m c) k).jira =
      (dictGet emptyTaskAcc m k).jira := by
  cases hct : c.ticket with
  | none => simp only [processCommit, hct]
  | some tid =>
    simp only [processCommit, hct]
    by_cases htid : tid = []
    · rw [if_pos htid]
    · rw [if_neg htid, dictGet_dictUpd]
      by_cases hk : k = tid
      · rw [if_pos hk, hk]
      · rw [if_neg hk]

theorem commitsMem_processCommit (m : TCMap) (c : Commit) (k : Str) (v : Commit)
    (h : v ∈ (dictGet emptyTaskAcc m k).git_commits) :
    v ∈ (dictGet emptyTaskAcc (processCommit m c) k).git_commits := by
  cases hct : c.ticket with
  | none => simpa only [processCommit, hct] using h
  | some tid =>
    simp only [processCommit, hct]
    by_cases htid : tid = []
    · rw [if_pos htid]; exact h
    · rw [if_neg htid, dictGet_dictUpd]
      by_cases hk : k = tid
      · rw [if_pos hk]
        show v ∈ (dictGet emptyTaskAcc m tid).git_commits ++ [c]
        exact List.mem_append_left _ (hk ▸ h)
      · rw [if_neg hk]; exact h

theorem commitsMem_commitFold_mono (v : Commit) (tid : Str) :
    ∀ (gs : List Commit) (m : TCMap),
      v ∈ (dictGet emptyTaskAcc m tid).git_commits →
      v ∈ (dictGet emptyTaskAcc (gs.foldl processCommit m) tid).git_commits
  | [], _, h => h
  | c :: gs, m, h => by
    rw [List.foldl_cons]
    exact commitsMem_commitFold_mono v tid gs _ (commitsMem_processCommit m c tid v h)

theorem commitsMem_gitFold (v : Commit) (tid : Str) (hvt : v.ticket = some tid)
    (htid : tid ≠ []) :
    ∀ (gs : List Commit) (m : TCMap), v ∈ gs →
      v ∈ (dictGet emptyTaskAcc (gs.foldl processCommit m) tid).git_commits
  | [], _, hmem => by cases hmem
  | c :: gs, m, hmem => by
    rw [List.foldl_cons]
    rcases List.mem_cons.mp hmem with h | h
    · subst h
      have hstep : v ∈ (dictGet emptyTaskAcc (processCommit m v) tid).git_commits := by
        simp only [processCommit, hvt]
        rw [if_neg htid, dictGet_dictUpd, if_pos rfl]
        show v ∈ (dictGet emptyTaskAcc m tid).git_commits ++ [v]
        exact List.mem_append_right _ (by simp)
      exact commitsMem_commitFold_mono v tid gs _ hstep
    · exact commitsMem_gitFold v tid hvt htid gs (processCommit m c) h

theorem buildTaskMap_commits_src (jira : List Ticket) (git : List Commit)
    (emails : List Email) :
    ∀ p ∈ buildTaskMap jira git emails, ∀ cm ∈ p.2.git_commits, cm.ticket = some p.1 := by
  unfold buildTaskMap
  refine foldl_pres processEmail
    (fun m => ∀ p ∈ m, ∀ cm ∈ p.2.git_commits, cm.ticket = some p.1) _ ?_ _ ?_
  · intro e _ m hm
    refine processEmail_forall e m hm ?_ ?_
    · intro _ k v hv cm hcm
      exact hv cm hcm
    · intro _ k v hv _ cm hcm
      exact hv cm hcm
  · refine foldl_pres processCommit
      (fun m => ∀ p ∈ m, ∀ cm ∈ p.2.git_commits, cm.ticket = some p.1) _ ?_ _ ?_
    · intro c _ m hm
      cases hct : c.ticket with
      | none =>
        simp only [processCommit, hct]
        exact hm
      | some tid =>
        simp only [processCommit, hct]
        by_cases htid : tid = []
        · rw [if_pos htid]; exact hm
        · rw [if_neg htid]
          refine dictUpd_forall _ _ _ ?_ ?_ m hm
          · intro cm hcm
            have hcm' : cm ∈ ([c] : List Commit) := hcm
            rw [List.mem_singleton.mp hcm']
            exact hct
          · intro v hv cm hcm
            have hcm' : cm ∈ v.git_commits ++ [c] := hcm
            rcases List.mem_append.mp hcm' with h | h
            · exact hv cm h
            · rw [List.mem_singleton.mp h]
              exact hct
    · refine foldl_pres processTicket
        (fun m => ∀ p ∈ m, ∀ cm ∈ p.2.git_commits, cm.ticket = some p.1) _ ?_ []
        (by simp)
      intro t _ m hm
      unfold processTicket
      refine dictUpd_forall _ _ _ ?_ ?_ m hm
      · intro cm hcm
        have hcm' : cm ∈ ([] : List Commit) := hcm
        cases hcm'
      · intro v hv cm hcm
        exact hv cm hcm

theorem jira_isSome_processTicket (m : TCMap) (t' : Ticket) (k : Str)
    (h : (dictGet emptyTaskAcc m k).jira.isSome = true) :
    (dictGet emptyTaskAcc (processTicket m t') k).jira.isSome = true := by
  unfold processTicket
  rw [dictGet_dictUpd]
  by_cases hk : k = t'.id
  · rw [if_pos hk]
    rfl
  · rw [if_neg hk]
    exact h

theorem jira_isSome_ticketFold_mono (k : Str) :
    ∀ (ts : List Ticket) (m : TCMap),
      (dictGet emptyTaskAcc m k).jira.isSome = true →
      (dictGet emptyTaskAcc (ts.foldl processTicket m) k).jira.isSome = true
  | [], _, h => h
  | tk :: ts, m, h => by
    rw [List.foldl_cons]
    exact jira_isSome_ticketFold_mono k ts _ (jira_isSome_processTicket m tk k h)

theorem jira_isSome_ticketFold (t : Ticket) :
    ∀ (ts : List Ticket) (m : TCMap), t ∈ ts →
      (dictGet emptyTaskAcc (ts.foldl processTicket m) t.id).jira.isSome = true
  | [], _, hmem => by cases hmem
  | tk :: ts, m, hmem => by
    rw [List.foldl_cons]
    rcases List.mem_cons.mp hmem with h | h
    · subst h
      have hstep : (dictGet emptyTaskAcc (processTicket m t) t.id).jira.isSome = true := by
        unfold processTicket
        rw [dictGet_dictUpd, if_pos rfl]
        rfl
      exact jira_isSome_ticketFold_mono t.id ts _ hstep
    · exact jira_isSome_ticketFold t ts _ h

theorem countP_filterMap_zero (v : Commit) :
    ∀ (d : List (Str × TaskAcc)), (∀ q ∈ d, v ∉ q.2.git_commits) →
      (d.filterMap (fun p => mkTaskCluster p.1 p.2)).countP
        (fun c => decide (v ∈ c.git_commits)) = 0
  | [], _ => rfl
  | p :: d, h => by
    have hrec := countP_filterMap_zero v d (fun q hq => h q (List.mem_cons_of_mem _ hq))
    cases hj : p.2.jira with
    | none =>
      have hhead : mkTaskCluster p.1 p.2 = none := by simp [mkTaskCluster, hj]
      simp only [List.filterMap_cons, hhead]
      exact hrec
    | some t =>
      have hhead : mkTaskCluster p.1 p.2 = some
          { task_id := p.1, summary := t.summary, status := t.status,
            assignee := t.assignee, created_at := t.created_at,
            git_commits := p.2.git_commits, emails := p.2.emails,
            timeline := p.2.timeline } := by
        simp [mkTaskCluster, hj]
      have hdec : (decide (v ∈ p.2.git_commits)) = false :=
        decide_eq_false (h p (by simp))
      simp only [List.filterMap_cons, hhead]
      rw [List.countP_cons]
      simp [hdec, hrec]

theorem countP_filterMap_one (v : Commit) (tid : Str) (hvt : v.ticket = some tid) :
    ∀ (d : List (Str × TaskAcc)),
      (d.map Prod.fst).Nodup →
      (∀ p ∈ d, ∀ cm ∈ p.2.git_commits, cm.ticket = some p.1) →
      v ∈ (dictGet emptyTaskAcc d tid).git_commits →
      ((dictGet emptyTaskAcc d tid).jira).isSome = true →
      (d.filterMap (fun p => mkTaskCluster p.1 p.2)).countP
        (fun c => decide (v ∈ c.git_commits)) = 1
  | [], _, _, hmem, _ => by
    have hmem' : v ∈ ([] : List Commit) := hmem
    cases hmem'
  | p :: d, hnd, hsrc, hmem, hjs => by
    rw [List.map_cons, List.nodup_cons] at hnd
    by_cases hpk : p.1 = tid
    · have hget : dictGet emptyTaskAcc (p :: d) tid = p.2 := by simp [dictGet, hpk]
      rw [hget] at hmem hjs
      rcases Option.isSome_iff_exists.mp hjs with ⟨t, ht⟩
      have hzero : ∀ q ∈ d, v ∉ q.2.git_commits := by
        intro q hq hvq
        have hsq := hsrc q (List.mem_cons_of_mem _ hq) v hvq
        rw [hvt] at hsq
        have hqk : tid = q.1 := Option.some.inj hsq
        apply hnd.1
        rw [hpk, hqk]
        exact List.mem_map.mpr ⟨q, hq, rfl⟩
      have hz := countP_filterMap_zero v d hzero
      have hhead : mkTaskCluster p.1 p.2 = some
          { task_id := p.1, summary := t.summary, status := t.status,
            assignee := t.assignee, created_at := t.created_at,
            git_commits := p.2.git_commits, emails := p.2.emails,
            timeline := p.2.timeline } := by
        simp [mkTaskCluster, ht]
      have hdec : (decide (v ∈ p.2.git_commits)) = true := decide_eq_true hmem
      simp only [List.filterMap_cons, hhead]
      rw [List.countP_cons]
      simp [hdec, hz]
    · have hget : dictGet emptyTaskAcc (p :: d) tid = dictGet emptyTaskAcc d tid := by
        simp [dictGet, hpk]
      rw [hget] at hmem hjs
      have hrec := countP_filterMap_one v tid hvt d hnd.2
        (fun q hq => hsrc q (List.mem_cons_of_mem _ hq)) hmem hjs
      cases hj : p.2.jira with
      | none =>
        have hhead : mkTaskCluster p.1 p.2 = none := by simp [mkTaskCluster, hj]
        simp only [List.filterMap_cons, hhead]
        exact hrec
      | some t =>
        have hhead : mkTaskCluster p.1 p.2 = some
            { task_id := p.1, summary := t.summary, status := t.status,
              assignee := t.assignee, created_at := t.created_at,
              git_commits := p.2.git_commits, emails := p.2.emails,
              timeline := p.2.timeline } := by
          simp [mkTaskCluster, hj]
        have hvp : v ∉ p.2.git_commits := by
          intro hvq
          have hsq := hsrc p (by simp) v hvq
          rw [hvt] at hsq
          exact hpk (Option.some.inj hsq).symm
        have hdec : (decide (v ∈ p.2.git_commits)) = false := decide_eq_false hvp
        simp only [List.filterMap_cons, hhead]
        rw [List.countP_cons]
        simp [hdec, hrec]

/-- Claim C5 counterexample: with a ticket whose identifier is the empty
string and a commit whose ticket reference is the empty string, the commit's
reference equals the ticket's identifier, yet the commit lands in no output
cluster, because the source's truthiness guard `if task_id:` drops the
empty-string reference. -/
theorem C5_counterexample :
    ¬ ((cluster_task_data [tEmptyId] [cEmptyRef] []).countP
        (fun c => decide (cEmptyRef ∈ c.git_commits)) = 1) := by
  decide

/-- Claim C5 (amended): every input commit whose ticket reference is a
nonempty string equal to some input ticket's identifier appears in exactly
one output cluster of `cluster_task_data` (the one keyed by that
identifier), and a commit with no ticket reference appears in no output
cluster. -/
theorem C5_commit_placement (jira : List Ticket) (git : List Commit) (emails : List Email) :
    (∀ (v : Commit) (tid : Str), v ∈ git → v.ticket = some tid → tid ≠ [] →
      (∃ t ∈ jira, t.id = tid) →
      (cluster_task_data jira git emails).countP
        (fun c => decide (v ∈ c.git_commits)) = 1) ∧
    (∀ v : Commit, v.ticket = none →
      (cluster_task_data jira git emails).countP
        (fun c => decide (v ∈ c.git_commits)) = 0) := by
  constructor
  · rintro v tid hvg hvt htid ⟨t, htj, hti⟩
    have hmem2 : v ∈ (dictGet emptyTaskAcc
        (git.foldl processCommit (jira.foldl processTicket [])) tid).git_commits :=
      commitsMem_gitFold v tid hvt htid git _ hvg
    have hmem3 : v ∈ (dictGet emptyTaskAcc (buildTaskMap jira git emails) tid).git_commits := by
      unfold buildTaskMap
      rw [dictGetProj_foldl TaskAcc.git_commits emptyTaskAcc tid processEmail
        (fun m e => commitsProj_processEmail m e tid) emails _]
      exact hmem2
    have hjs1 : (dictGet emptyTaskAcc (jira.foldl processTicket []) t.id).jira.isSome
        = true := jira_isSome_ticketFold t jira [] htj
    rw [hti] at hjs1
    have hjs2 : (dictGet emptyTaskAcc
        (git.foldl processCommit (jira.foldl processTicket [])) tid).jira.isSome
        = true := by
      rw [dictGetProj_foldl TaskAcc.jira emptyTaskAcc tid processCommit
        (fun m c => jiraProj_processCommit m c tid) git _]
      exact hjs1
    have hjs3 : (dictGet emptyTaskAcc (buildTaskMap jira git emails) tid).jira.isSome
        = true := by
      unfold buildTaskMap
      rw [dictGetProj_foldl TaskAcc.jira emptyTaskAcc tid processEmail
        (fun m e => jiraProj_processEmail m e tid) emails _]
      exact hjs2
    have hkeys : (((buildTaskMap jira git emails).map
        (fun p => (p.1, sortTaskAcc p.2))).map Prod.fst).Nodup := by
      rw [List.map_map]
      have heq : ((buildTaskMap jira git emails).map (Prod.fst ∘ fun p => (p.1, sortTaskAcc p.2)))
          = (buildTaskMap jira git emails).map Prod.fst :=
        List.map_congr_left (fun p _ => rfl)
      rw [heq]
      exact nodupKeys_buildTaskMap jira git emails
    have hsrc4 : ∀ p ∈ ((buildTaskMap jira git emails).map
        (fun p => (p.1, sortTaskAcc p.2))), ∀ cm ∈ p.2.git_commits, cm.ticket = some p.1 := by
      intro p hp
      rcases List.mem_map.mp hp with ⟨q, hq, rfl⟩
      intro cm hcm
      exact buildTaskMap_commits_src jira git emails q hq cm hcm
    have hmem4 : v ∈ (dictGet emptyTaskAcc ((buildTaskMap jira git emails).map
        (fun p => (p.1, sortTaskAcc p.2))) tid).git_commits := by
      rw [dictGet_map_proj TaskAcc.git_commits emptyTaskAcc
        (fun p => (p.1, sortTaskAcc p.2)) tid (buildTaskMap jira git emails)
        (fun p => rfl) (fun p => rfl)]
      exact hmem3
    have hjs4 : ((dictGet emptyTaskAcc ((buildTaskMap jira git emails).map
        (fun p => (p.1, sortTaskAcc p.2))) tid).jira).isSome = true := by
      rw [dictGet_map_proj TaskAcc.jira emptyTaskAcc
        (fun p => (p.1, sortTaskAcc p.2)) tid (buildTaskMap jira git emails)
        (fun p => rfl) (fun p => rfl)]
      exact hjs3
    unfold cluster_task_data
    exact countP_filterMap_one v tid hvt _ hkeys hsrc4 hmem4 hjs4
  · intro v hvn
    unfold cluster_task_data
    refine countP_filterMap_zero v _ ?_
    intro q hq hvq
    rcases List.mem_map.mp hq with ⟨p, hp, rfl⟩
    have hvq' : v ∈ p.2.git_commits := hvq
    have := buildTaskMap_commits_src jira git emails p hp v hvq'
    rw [hvn] at this
    cases this

/-- Claim C5 witness: the amended theorem applied at a concrete input with
one referencing commit and one reference-free commit. -/
theorem C5_witness :
    ((cluster_task_data [wTicket] [wCommit, cNoRef] [wEmailD]).countP
        (fun c => decide (wCommit ∈ c.git_commits)) = 1) ∧
    ((cluster_task_data [wTicket] [wCommit, cNoRef] [wEmailD]).countP
        (fun c => decide (cNoRef ∈ c.git_commits)) = 0) :=
  ⟨(C5_commit_placement [wTicket] [wCommit, cNoRef] [wEmailD]).1 wCommit
      (("PROJ-1").toList) (by decide) (by decide) (by decide) (by decide),
    (C5_commit_placement [wTicket] [wCommit, cNoRef] [wEmailD]).2 cNoRef (by decide)⟩

/-! Claim C10: the seeding "jira" timeline event. -/

theorem containsKey_eq_false {β : Type} (d : List (Str × β)) (k : Str)
    (h : ∀ p ∈ d, p.1 ≠ k) : containsKey d k = false := by
  induction d with
  | nil => rfl
  | cons p d ih =>
    simp only [containsKey, List.any_cons, Bool.or_eq_false_iff]
    refine ⟨decide_eq_false (h p (by simp)), ?_⟩
    exact ih (fun q hq => h q (List.mem_cons_of_mem _ hq))

theorem dictUpd_not_contains {β : Type} (dflt : β) (f : β → β) (k : Str) :
    ∀ (d : List (Str × β)), containsKey d k = false →
      dictUpd dflt f k d = d ++ [(k, f dflt)]
  | [], _ => rfl
  | p :: d, h => by
    simp only [containsKey, List.any_cons, Bool.or_eq_false_iff,
      decide_eq_false_iff_not] at h
    simp only [dictUpd, if_neg h.1]
    rw [dictUpd_not_contains dflt f k d (by simp [containsKey, h.2])]
    rfl

theorem taskInv_attach (k : Str) (v : TaskAcc) (e : Email)
    (hv : taskInv (k, v)) : taskInv (k, attachEmailTask e v) := by
  obtain ⟨h1, h2, h3⟩ := hv
  have htag : (("email" : String) == "jira") = false := by decide
  unfold attachEmailTask
  refine ⟨?_, ?_, ?_⟩
  · dsimp only
    rw [List.countP_append]
    simp only [List.countP_cons, List.countP_nil, htag]
    simpa using h1
  · dsimp only
    rw [List.length_append, List.length_append]
    simp only [List.length_cons, List.length_nil] at h2 ⊢
    omega
  · intro t ht
    rcases h3 t ht with ⟨ev, hevm, hevt, hevs⟩
    exact ⟨ev, List.mem_append_left _ hevm, hevt, hevs⟩

theorem taskInv_commitAdd (tid : Str) (v : TaskAcc) (c : Commit)
    (hv : taskInv (tid, v)) :
    taskInv (tid, { v with
      git_commits := v.git_commits ++ [c],
      timeline := v.timeline ++
        [{ tag := "git", eid := c.commit_id, timestamp := c.timestamp,
           data := .ofCommit c }] }) := by
  obtain ⟨h1, h2, h3⟩ := hv
  have htag : (("git" : String) == "jira") = false := by decide
  refine ⟨?_, ?_, ?_⟩
  · dsimp only
    rw [List.countP_append]
    simp only [List.countP_cons, List.countP_nil, htag]
    simpa using h1
  · dsimp only
    rw [List.length_append, List.length_append]
    simp only [List.length_cons, List.length_nil] at h2 ⊢
    omega
  · intro t ht
    rcases h3 t ht with ⟨ev, hevm, hevt, hevs⟩
    exact ⟨ev, List.mem_append_left _ hevm, hevt, hevs⟩

theorem taskInv_fresh_commit (tid : Str) (c : Commit) :
    taskInv (tid, { emptyTaskAcc with
      git_commits := [c],
      timeline :=
        [{ tag := "git", eid := c.commit_id, timestamp := c.timestamp,
           data := .ofCommit c }] }) := by
  have htag : (("git" : String) == "jira") = false := by decide
  refine ⟨?_, ?_, ?_⟩
  · simp [emptyTaskAcc, htag]
  · simp [emptyTaskAcc]
  · intro t ht
    have ht' : (none : Option Ticket) = some t := ht
    cases ht'

theorem taskInv_fresh_ticket (t : Ticket) :
    taskInv (t.id, { emptyTaskAcc with
      jira := some t,
      timeline := emptyTaskAcc.timeline ++
        [{ tag := "jira", eid := t.id, timestamp := t.created_at,
           data := .ofTicket t }] }) := by
  have htag : (("jira" : String) == "jira") = true := by decide
  refine ⟨?_, ?_, ?_⟩
  · simp [emptyTaskAcc, htag]
  · simp [emptyTaskAcc]
  · intro t' ht'
    have ht'' : some t = some t' := ht'
    refine ⟨{ tag := "jira", eid := t.id, timestamp := t.created_at,
              data := .ofTicket t }, by simp [emptyTaskAcc], rfl, ?_⟩
    rw [← Option.some.inj ht'']

theorem ticketFold_taskInv :
    ∀ (ts : List Ticket) (m : TCMap),
      (ts.map Ticket.id).Nodup →
      (∀ p ∈ m, taskInv p) →
      (∀ p ∈ m, p.1 ∉ ts.map Ticket.id) →
      ∀ p ∈ ts.foldl processTicket m, taskInv p
  | [], _, _, hm, _ => hm
  | t :: ts, m, hnd, hm, hdisj => by
    rw [List.map_cons, List.nodup_cons] at hnd
    rw [List.foldl_cons]
    have hfresh : containsKey m t.id = false := by
      apply containsKey_eq_false
      intro p hp
      have hd := hdisj p hp
      simp only [List.map_cons, List.mem_cons] at hd
      exact fun hh => hd (Or.inl hh)
    have hsplit : processTicket m t = m ++
        [(t.id, { emptyTaskAcc with
          jira := some t,
          timeline := emptyTaskAcc.timeline ++
            [{ tag := "jira", eid := t.id, timestamp := t.created_at,
               data := .ofTicket t }] })] := by
      unfold processTicket
      exact dictUpd_not_contains _ _ _ m hfresh
    refine ticketFold_taskInv ts (processTicket m t) hnd.2 ?_ ?_
    · rw [hsplit]
      intro p hp
      rcases List.mem_append.mp hp with h | h
      · exact hm p h
      · rw [List.mem_singleton.mp h]
        exact taskInv_fresh_ticket t
    · rw [hsplit]
      intro p hp
      rcases List.mem_append.mp hp with h | h
      · have hd := hdisj p h
        simp only [List.map_cons, List.mem_cons] at hd
        exact fun hh => hd (Or.inr hh)
      · rw [List.mem_singleton.mp h]
        exact hnd.1

theorem buildTaskMap_taskInv (jira : List Ticket) (git : List Commit)
    (emails : List Email) (hnd : (jira.map Ticket.id).Nodup) :
    ∀ p ∈ buildTaskMap jira git emails, taskInv p := by
  unfold buildTaskMap
  refine foldl_pres processEmail (fun m => ∀ p ∈ m, taskInv p) _ ?_ _ ?_
  · intro e _ m hm
    refine processEmail_forall e m hm ?_ ?_
    · intro _ k v hv
      exact taskInv_attach k v e hv
    · intro _ k v hv _
      exact taskInv_attach k v e hv
  · refine foldl_pres processCommit (fun m => ∀ p ∈ m, taskInv p) _ ?_ _ ?_
    · intro c _ m hm
      cases hct : c.ticket with
      | none =>
        simp only [processCommit, hct]
        exact hm
      | some tid =>
        simp only [processCommit, hct]
        by_cases htid : tid = []
        · rw [if_pos htid]; exact hm
        · rw [if_neg htid]
          refine dictUpd_forall _ _ _ ?_ ?_ m hm
          · exact taskInv_fresh_commit tid c
          · intro v hv
            exact taskInv_commitAdd tid v c hv
    · exact ticketFold_taskInv jira [] hnd (by simp) (by simp)

theorem taskInv_sort (p : Str × TaskAcc) (hv : taskInv p) :
    taskInv (p.1, sortTaskAcc p.2) := by
  obtain ⟨h1, h2, h3⟩ := hv
  have hperm : List.Perm (sortAsc (fun ev => ev.timestamp) p.2.timeline) p.2.timeline :=
    sortAsc_perm _ _
  refine ⟨?_, ?_, ?_⟩
  · show (sortAsc (fun ev => ev.timestamp) p.2.timeline).countP
        (fun ev => ev.tag == "jira") = if p.2.jira.isSome then 1 else 0
    rw [hperm.countP_eq]
    exact h1
  · show (sortAsc (fun ev => ev.timestamp) p.2.timeline).length =
      (if p.2.jira.isSome then 1 else 0) + p.2.git_commits.length + p.2.emails.length
    rw [hperm.length_eq]
    exact h2
  · intro t ht
    rcases h3 t ht with ⟨ev, hevm, hevt, hevs⟩
    exact ⟨ev, hperm.mem_iff.mpr hevm, hevt, hevs⟩

/-- Claim C10 counterexample: two input tickets sharing the identifier
`PROJ-1` produce one cluster whose timeline holds two `"jira"` events and
has length 2, not 1 plus its (zero) commits and emails. -/
theorem C10_counterexample :
    ¬ (∀ c ∈ cluster_task_data [tDup1, tDup2] [] [],
        c.timeline.countP (fun ev => ev.tag == "jira") = 1 ∧
        c.timeline.length = 1 + c.git_commits.length + c.emails.length) := by
  decide

/-- Claim C10 (amended): when the input tickets have pairwise distinct
identifiers, every output cluster's timeline holds exactly one event of
type `"jira"` — an event kind beyond the commits and emails — timestamped
at the seeding ticket's creation time, so the timeline length is 1 plus the
number of attached commits plus the number of attached email copies. -/
theorem C10_jira_event (jira : List Ticket) (git : List Commit) (emails : List Email)
    (hnd : (jira.map Ticket.id).Nodup) :
    ∀ c ∈ cluster_task_data jira git emails,
      c.timeline.countP (fun ev => ev.tag == "jira") = 1 ∧
      c.timeline.length = 1 + c.git_commits.length + c.emails.length ∧
      ∃ ev ∈ c.timeline, ev.tag = "jira" ∧ ev.timestamp = c.created_at := by
  intro c hc
  rcases List.mem_filterMap.mp hc with ⟨q, hq, hmk⟩
  rcases List.mem_map.mp hq with ⟨p, hp, rfl⟩
  have hinv : taskInv (p.1, sortTaskAcc p.2) :=
    taskInv_sort p (buildTaskMap_taskInv jira git emails hnd p hp)
  cases hj : (sortTaskAcc p.2).jira with
  | none => simp [mkTaskCluster, hj] at hmk
  | some t =>
    simp only [mkTaskCluster, hj] at hmk
    have hc2 := Option.some.inj hmk
    obtain ⟨h1, h2, h3⟩ := hinv
    rw [hj] at h1 h2
    simp only [Option.isSome_some, if_true] at h1 h2
    refine ⟨?_, ?_, ?_⟩
    · rw [← hc2]
      exact h1
    · rw [← hc2]
      show (sortTaskAcc p.2).timeline.length =
        1 + (sortTaskAcc p.2).git_commits.length + (sortTaskAcc p.2).emails.length
      omega
    · rcases h3 t hj with ⟨ev, hevm, hevt, hevs⟩
      refine ⟨ev, ?_, hevt, ?_⟩
      · rw [← hc2]
        exact hevm
      · rw [← hc2]
        exact hevs

/-- Claim C10 witness: the amended theorem at a concrete input with one
ticket, one commit and one referencing email. -/
theorem C10_witness :
    ((cluster_task_data [wTicket] [wCommit] [wEmailD]).headD defTaskCluster).timeline.countP
        (fun ev => ev.tag == "jira") = 1 ∧
    ((cluster_task_data [wTicket] [wCommit] [wEmailD]).headD defTaskCluster).timeline.length =
      1 + ((cluster_task_data [wTicket] [wCommit] [wEmailD]).headD
        defTaskCluster).git_commits.length +
      ((cluster_task_data [wTicket] [wCommit] [wEmailD]).headD defTaskCluster).emails.length ∧
    ∃ ev ∈ ((cluster_task_data [wTicket] [wCommit] [wEmailD]).headD defTaskCluster).timeline,
      ev.tag = "jira" ∧
      ev.timestamp = ((cluster_task_data [wTicket] [wCommit] [wEmailD]).headD
        defTaskCluster).created_at :=
  C10_jira_event [wTicket] [wCommit] [wEmailD] (by decide) _ (by decide)
